import Mathlib

/-!
# slcan_terminal: the protocol translation layer and the session

A shallow embedding of `src/slcan_terminal.cpp` (class `SlcanTerminal`): the
pure text transforms `encode_dlc`, `convert_cansend_format`,
`get_feedback_description` and `get_error_description`; `send_command` and
`parse_commands`; the display of replies in `receive_thread_func` and
`send_init_commands`; the interactive loop of `run_terminal`; and the two
threads of a session as a step function.

Conventions of the embedding.

* A `std::string` is a `List Char`; one `Char` stands for one C++ `char`.
  `std::string::npos` is `none`.
* String lengths and positions (`size_t`) are natural numbers.  The payload
  length `int dlc = clean_data.length() / 2` is the exact quotient: the
  narrowing to `int` is the identity for every string shorter than `2 ^ 32`
  characters.
* The parameter of `encode_dlc` is a C++ `int`, embedded as `Int`; the
  narrowing of `'0' + byte_count` to `char` keeps the low eight bits.
* A line written to `std::cerr` by `convert_cansend_format` is returned next
  to the result as a value of `CansendError`.
* The bytes delivered by one `read` of the serial link are a list, the chunk.
  The `std::string` that the source builds from the NUL-terminated buffer is
  `c_string` of the chunk: the bytes before the first NUL byte.
* A loop of the source whose number of iterations is not fixed is a function
  with a bound on the iterations; the bound given where it is called is
  proved to be enough.
* The keystrokes of the interactive loop are a list; when the list is used up
  the loop waits in `read` (standard input is a terminal read one byte at a
  time without timeout, as `setup_stdin` sets it up or exits).
-/

namespace Slcan

/-- A `std::string`. -/
abbrev Str := List Char

/-! ## Library functions used by the source -/

/-- The `std::isxdigit` test in the "C" locale: `0-9`, `a-f`, `A-F`. -/
def isxdigit (c : Char) : Bool :=
  ('0' ≤ c && c ≤ '9') || ('a' ≤ c && c ≤ 'f') || ('A' ≤ c && c ≤ 'F')

/-- The `std::string::find(char)` member: position of the first occurrence of
`c`, or `none` for `npos`. -/
def find (c : Char) : Str → Option Nat
  | [] => none
  | x :: xs => if x = c then some 0 else (find c xs).map (· + 1)

/-- The `std::string::substr(pos, n)` member, for `pos ≤ size()`. -/
def substr (s : Str) (pos n : Nat) : Str := (s.drop pos).take n

/-- The `std::string::substr(pos)` member, for `pos ≤ size()`. -/
def substr_from (s : Str) (pos : Nat) : Str := s.drop pos

/-! ## `encode_dlc` (lines 440-465) -/

/-- The `encode_dlc` member: byte count to SLCAN DLC character.  The first
branch is `'0' + byte_count` narrowed to `char`. -/
def encode_dlc (byte_count : Int) : Char :=
  if byte_count ≤ 8 then
    Char.ofNat (((48 + byte_count) % 256).toNat)
  else if byte_count ≤ 12 then '9'
  else if byte_count ≤ 16 then 'A'
  else if byte_count ≤ 20 then 'B'
  else if byte_count ≤ 24 then 'C'
  else if byte_count ≤ 32 then 'D'
  else if byte_count ≤ 48 then 'E'
  else 'F'

/-! ## `convert_cansend_format` (lines 467-580) -/

/-- The lines `convert_cansend_format` writes to `std::cerr`, one constructor
per `std::cerr <<` statement of the function, with the values it prints. -/
inductive CansendError where
  /-- Line 491. -/
  | invalid_packet_type (packet_type : Char)
  /-- Line 514. -/
  | invalid_hex_data (clean_data : Str)
  /-- Line 522. -/
  | odd_length
  /-- Line 529. -/
  | data_too_long
  /-- Line 546. -/
  | extended_id_too_long
  /-- Line 556. -/
  | standard_id_too_long
  /-- Line 567. -/
  | invalid_can_id (can_id_str : Str)
  deriving DecidableEq, Repr

/-- What one call of `convert_cansend_format` produces: the returned string and
the line written to `std::cerr`, if any. -/
structure Converted where
  /-- The returned string. -/
  result : Str
  /-- The line written to `std::cerr`, if any. -/
  cerr : Option CansendError
  deriving DecidableEq, Repr

/-- The `convert_cansend_format` member. -/
def convert_cansend_format (input : Str) : Converted :=
  match find '#' input with
  | none => ⟨input, none⟩
  | some hash_pos =>
    match input with
    | [] => ⟨input, none⟩
    | packet_type :: _ =>
      if packet_type ≠ 't' ∧ packet_type ≠ 'T' ∧
          packet_type ≠ 'r' ∧ packet_type ≠ 'R' ∧
          packet_type ≠ 'd' ∧ packet_type ≠ 'D' ∧
          packet_type ≠ 'b' ∧ packet_type ≠ 'B' then
        ⟨input, some (.invalid_packet_type packet_type)⟩
      else
        let can_id_str := substr input 1 (hash_pos - 1)
        let data_str := substr_from input (hash_pos + 1)
        let clean_data := data_str.filter (fun c => c ≠ '.' ∧ c ≠ ' ')
        if ¬ clean_data.all isxdigit then
          ⟨input, some (.invalid_hex_data clean_data)⟩
        else if clean_data.length % 2 ≠ 0 then
          ⟨input, some .odd_length⟩
        else
          let dlc : Int := ((clean_data.length / 2 : Nat) : Int)
          if dlc > 64 then
            ⟨input, some .data_too_long⟩
          else
            let dlc_char := encode_dlc dlc
            let is_extended : Bool :=
              packet_type = 'T' ∨ packet_type = 'R' ∨
              packet_type = 'D' ∨ packet_type = 'B'
            if is_extended then
              if can_id_str.length > 8 then
                ⟨input, some .extended_id_too_long⟩
              else
                let formatted_id := List.replicate (8 - can_id_str.length) '0' ++ can_id_str
                if ¬ can_id_str.all isxdigit then
                  ⟨input, some (.invalid_can_id can_id_str)⟩
                else
                  ⟨[packet_type] ++ formatted_id ++ [dlc_char] ++ clean_data, none⟩
            else
              if can_id_str.length > 3 then
                ⟨input, some .standard_id_too_long⟩
              else
                let formatted_id := List.replicate (3 - can_id_str.length) '0' ++ can_id_str
                if ¬ can_id_str.all isxdigit then
                  ⟨input, some (.invalid_can_id can_id_str)⟩
                else
                  ⟨[packet_type] ++ formatted_id ++ [dlc_char] ++ clean_data, none⟩

/-! ## `get_feedback_description` (lines 133-182) -/

/-- The `get_feedback_description` member.  The empty string is the "no
feedback" answer. -/
def get_feedback_description (response : Str) : Str :=
  match find '#' response with
  | none => []
  | some pos =>
    if h : pos + 1 < response.length then
      let code := response[pos + 1]
      if code = '\r' ∨ code = '\n' then " (Success)".toList
      else if code = '1' then " (Invalid command)".toList
      else if code = '2' then " (Invalid parameter)".toList
      else if code = '3' then " (Adapter must be open)".toList
      else if code = '4' then " (Adapter must be closed)".toList
      else if code = '5' then " (HAL error from ST Microelectronics)".toList
      else if code = '6' then " (Feature not supported/implemented)".toList
      else if code = '7' then " (CAN Tx buffer full - no ACK, 67 packets waiting)".toList
      else if code = '8' then " (CAN bus off - severe error occurred)".toList
      else if code = '9' then " (Sending not possible in silent mode)".toList
      else if code = ':' then " (Baudrate not set)".toList
      else if code = ';' then " (Flash Option Bytes programming failed)".toList
      else if code = '<' then " (Hardware reset required - reconnect USB)".toList
      else []
    else []

/-! ## `get_error_description` (lines 184-318) -/

/-- Value of one hex digit, as `strtol` reads it. -/
def hex_digit_value (c : Char) : Nat :=
  if '0' ≤ c ∧ c ≤ '9' then c.toNat - '0'.toNat
  else if 'a' ≤ c ∧ c ≤ 'f' then c.toNat - 'a'.toNat + 10
  else if 'A' ≤ c ∧ c ≤ 'F' then c.toNat - 'A'.toNat + 10
  else 0

/-- The call `std::stoi(s, nullptr, 16)` on a string that begins with hex
digits: the value of the longest prefix of hex digits.  Every call in the
source passes two characters that were checked with `isxdigit` before, so the
white space, sign, `0x` prefix and exceptions of `std::stoi` do not arise and
the result (at most 255) is a non-negative `int`. -/
def stoi_hex (s : Str) : Nat :=
  (s.takeWhile isxdigit).foldl (fun acc c => acc * 16 + hex_digit_value c) 0

/-- The function `std::to_string(int)`: decimal digits, with a sign for negative values. -/
def to_string (n : Int) : Str :=
  if n < 0 then '-' :: Nat.toDigits 10 n.natAbs else Nat.toDigits 10 n.toNat

/-- Lines 266-303 of `get_error_description`: the text appended to `desc` for
the firmware error flags, with the local variable `first`. -/
def fw_flags_desc (flags : Nat) : Str :=
  if flags ≠ 0 then
    let desc : Str := ", ".toList
    let first := true
    let (desc, first) :=
      if flags &&& 0x01 ≠ 0 then (desc ++ "Rx Failed".toList, false) else (desc, first)
    let (desc, first) :=
      if flags &&& 0x02 ≠ 0 then
        ((if !first then desc ++ "+".toList else desc) ++ "Tx Failed".toList, false)
      else (desc, first)
    let (desc, first) :=
      if flags &&& 0x04 ≠ 0 then
        ((if !first then desc ++ "+".toList else desc) ++ "CAN Tx buffer overflow".toList, false)
      else (desc, first)
    let (desc, first) :=
      if flags &&& 0x08 ≠ 0 then
        ((if !first then desc ++ "+".toList else desc) ++ "USB IN buffer overflow".toList, false)
      else (desc, first)
    let (desc, _) :=
      if flags &&& 0x10 ≠ 0 then
        ((if !first then desc ++ "+".toList else desc) ++ "Tx Timeout".toList, false)
      else (desc, first)
    desc
  else []

/-- Lines 210-317 of `get_error_description`: the description built from the
eight validated characters `error_code`.  `error_code` has eight characters,
so the two `getD` reads (`error_code[0]`, `error_code[1]`) are in range. -/
def describe_error_code (error_code : Str) : Str :=
  let desc : Str := " (".toList
  let bus_status := error_code.getD 0 (Char.ofNat 0)
  let desc := desc ++
    (if bus_status = '0' then "Bus Active".toList
     else if bus_status = '1' then "Warning Level".toList
     else if bus_status = '2' then "Bus Passive".toList
     else if bus_status = '3' then "Bus Off".toList
     else "Unknown Bus Status".toList)
  let protocol_error := error_code.getD 1 (Char.ofNat 0)
  let desc :=
    if protocol_error ≠ '0' then
      desc ++ ", ".toList ++
        (if protocol_error = '1' then "Bit stuffing error".toList
         else if protocol_error = '2' then "Frame format error".toList
         else if protocol_error = '3' then "No ACK received".toList
         else if protocol_error = '4' then "Recessive bit error".toList
         else if protocol_error = '5' then "Dominant bit error".toList
         else if protocol_error = '6' then "CRC error".toList
         else "Unknown protocol error".toList)
    else desc
  let fw_flags := substr error_code 2 2
  let flags := stoi_hex fw_flags
  let desc := desc ++ fw_flags_desc flags
  let tx_err := substr error_code 4 2
  let tx_count := stoi_hex tx_err
  let rx_err := substr error_code 6 2
  let rx_count := stoi_hex rx_err
  let desc := desc ++ ", Tx Errors: ".toList ++ to_string tx_count
  let desc := desc ++ ", Rx Errors: ".toList ++ to_string rx_count
  desc ++ ")".toList

/-- The `get_error_description` member: lines 184-208 locate and validate the
error code, `describe_error_code` is the rest of the body.  The empty string
is the "no error report" answer. -/
def get_error_description (response : Str) : Str :=
  match find 'E' response with
  | none => []
  | some pos =>
    if pos + 8 ≥ response.length then []
    else
      let error_code := substr response (pos + 1) 8
      if ¬ error_code.all isxdigit then []
      else describe_error_code error_code

/-! ## The specification's reading of `translate_shorthand`

These definitions follow the words of the specification (section 4.1, steps
2 to 10), not the code; the theorems compare the code with them. -/

/-- The error kinds the specification names for `translate_shorthand`. -/
inductive TranslateError where
  | InvalidPacketType
  | InvalidHex
  | OddLength
  | TooLong
  | IdTooLong
  deriving DecidableEq, Repr

/-- The error kind of each line the code writes to `std::cerr`. -/
def CansendError.kind : CansendError → TranslateError
  | .invalid_packet_type _ => .InvalidPacketType
  | .invalid_hex_data _ => .InvalidHex
  | .odd_length => .OddLength
  | .data_too_long => .TooLong
  | .extended_id_too_long => .IdTooLong
  | .standard_id_too_long => .IdTooLong
  | .invalid_can_id _ => .InvalidHex

/-- The packet types of a shorthand frame. -/
def spec_packet_types : List Char := ['t', 'T', 'r', 'R', 'd', 'D', 'b', 'B']

/-- The extended packet types. -/
def spec_extended_types : List Char := ['T', 'R', 'D', 'B']

/-- Step 8: the target id width, 8 if extended else 3. -/
def spec_id_width (packet_type : Char) : Nat :=
  if packet_type ∈ spec_extended_types then 8 else 3

/-- Step 3: the characters between position 1 and the first `#`. -/
def spec_id_text (input : Str) : Str := (input.takeWhile (· ≠ '#')).drop 1

/-- Step 3: everything after the first `#`. -/
def spec_data_text (input : Str) : Str := (input.dropWhile (· ≠ '#')).drop 1

/-- Step 4: `data_text` with every `.` and space removed. -/
def spec_clean_data (input : Str) : Str :=
  (spec_data_text input).filter (fun c => !(c == '.' || c == ' '))

/-- Steps 2 to 10, in the order of the specification: the error of the first
check that fails, or `none` when every check passes. -/
def spec_first_failure (input : Str) : Option TranslateError :=
  if ¬ (∃ p ∈ spec_packet_types, input.head? = some p) then some .InvalidPacketType
  else if ¬ (∀ c ∈ spec_clean_data input, isxdigit c = true) then some .InvalidHex
  else if (spec_clean_data input).length % 2 ≠ 0 then some .OddLength
  else if (spec_clean_data input).length / 2 > 64 then some .TooLong
  else if (spec_id_text input).length > spec_id_width (input.headD 'x') then some .IdTooLong
  else if ¬ (∀ c ∈ spec_id_text input, isxdigit c = true) then some .InvalidHex
  else none

/-- Steps 11 and 12: packet type, id zero-padded on the left to the target
width, the length code of `len(clean_data)/2`, and the clean data. -/
def spec_wire_frame (packet_type : Char) (id_text clean_data : Str) : Str :=
  packet_type ::
    (List.replicate (spec_id_width packet_type - id_text.length) '0' ++ id_text ++
      encode_dlc (clean_data.length / 2 : Nat) :: clean_data)

/-- The order of the length codes in the specification:
`0<1<...<8<9<A<B<C<D<E<F`; a code's rank is its position in this list. -/
def spec_code_rank (code : Char) : Nat :=
  "0123456789ABCDEF".toList.indexOf code

/-! ## The specification's reading of the decoders

These definitions follow the data model of the specification (section 3). -/

/-- The feedback events of the specification (without `Unknown`, which is
"no recognized feedback"). -/
inductive FeedbackEvent where
  | Success
  | InvalidCommand
  | InvalidParameter
  | AdapterMustBeOpen
  | AdapterMustBeClosed
  | HalError
  | NotSupported
  | TxBufferFull
  | BusOff
  | SilentModeTxRejected
  | BaudrateNotSet
  | FlashProgrammingFailed
  | HardwareResetRequired
  deriving DecidableEq, Repr

/-- The table of section 3: the event of the status character after `#`. -/
def spec_feedback_event (c : Char) : Option FeedbackEvent :=
  if c = '\r' ∨ c = '\n' then some .Success
  else if c = '1' then some .InvalidCommand
  else if c = '2' then some .InvalidParameter
  else if c = '3' then some .AdapterMustBeOpen
  else if c = '4' then some .AdapterMustBeClosed
  else if c = '5' then some .HalError
  else if c = '6' then some .NotSupported
  else if c = '7' then some .TxBufferFull
  else if c = '8' then some .BusOff
  else if c = '9' then some .SilentModeTxRejected
  else if c = ':' then some .BaudrateNotSet
  else if c = ';' then some .FlashProgrammingFailed
  else if c = '<' then some .HardwareResetRequired
  else none

/-- The annotation the terminal shows for each feedback event. -/
def FeedbackEvent.text : FeedbackEvent → Str
  | .Success => " (Success)".toList
  | .InvalidCommand => " (Invalid command)".toList
  | .InvalidParameter => " (Invalid parameter)".toList
  | .AdapterMustBeOpen => " (Adapter must be open)".toList
  | .AdapterMustBeClosed => " (Adapter must be closed)".toList
  | .HalError => " (HAL error from ST Microelectronics)".toList
  | .NotSupported => " (Feature not supported/implemented)".toList
  | .TxBufferFull => " (CAN Tx buffer full - no ACK, 67 packets waiting)".toList
  | .BusOff => " (CAN bus off - severe error occurred)".toList
  | .SilentModeTxRejected => " (Sending not possible in silent mode)".toList
  | .BaudrateNotSet => " (Baudrate not set)".toList
  | .FlashProgrammingFailed => " (Flash Option Bytes programming failed)".toList
  | .HardwareResetRequired => " (Hardware reset required - reconnect USB)".toList

/-- The bus status field of an error report. -/
inductive BusStatus where
  | Active
  | WarningLevel
  | BusPassive
  | BusOff
  | Unknown
  deriving DecidableEq, Repr

/-- The protocol error field of an error report. -/
inductive ProtocolError where
  | None
  | BitStuffing
  | FrameFormat
  | NoAck
  | RecessiveBit
  | DominantBit
  | Crc
  | Unknown
  deriving DecidableEq, Repr

/-- Digit 1 of an error report. -/
def spec_bus_status (d1 : Char) : BusStatus :=
  if d1 = '0' then .Active
  else if d1 = '1' then .WarningLevel
  else if d1 = '2' then .BusPassive
  else if d1 = '3' then .BusOff
  else .Unknown

/-- Digit 2 of an error report. -/
def spec_protocol_error (d2 : Char) : ProtocolError :=
  if d2 = '0' then .None
  else if d2 = '1' then .BitStuffing
  else if d2 = '2' then .FrameFormat
  else if d2 = '3' then .NoAck
  else if d2 = '4' then .RecessiveBit
  else if d2 = '5' then .DominantBit
  else if d2 = '6' then .Crc
  else .Unknown

/-- The name of a bus status in a description. -/
def BusStatus.text : BusStatus → Str
  | .Active => "Bus Active".toList
  | .WarningLevel => "Warning Level".toList
  | .BusPassive => "Bus Passive".toList
  | .BusOff => "Bus Off".toList
  | .Unknown => "Unknown Bus Status".toList

/-- The part of a description for the protocol error: nothing for `None`,
otherwise a separator and the name of the error. -/
def ProtocolError.text : ProtocolError → Str
  | .None => []
  | .BitStuffing => ", Bit stuffing error".toList
  | .FrameFormat => ", Frame format error".toList
  | .NoAck => ", No ACK received".toList
  | .RecessiveBit => ", Recessive bit error".toList
  | .DominantBit => ", Dominant bit error".toList
  | .Crc => ", CRC error".toList
  | .Unknown => ", Unknown protocol error".toList

/-- The value of a hex digit: its position among `0123456789ABCDEF`, letters
in either case. -/
def spec_hex_value (c : Char) : Nat :=
  "0123456789ABCDEF".toList.indexOf c.toUpper

/-- The value of the hex pair `hi lo`. -/
def spec_hex_pair (hi lo : Char) : Nat := 16 * spec_hex_value hi + spec_hex_value lo

/-! ## The specification's reading of the firmware flags -/

/-- The five named firmware flags with their bits, in ascending bit order. -/
def spec_flag_names : List (Nat × Str) :=
  [(0x01, "Rx Failed".toList), (0x02, "Tx Failed".toList),
   (0x04, "CAN Tx buffer overflow".toList), (0x08, "USB IN buffer overflow".toList),
   (0x10, "Tx Timeout".toList)]

/-- The names of exactly those named flags whose bit is set in `byte`, in
ascending bit order. -/
def spec_named_flags (byte : Nat) : List Str :=
  (spec_flag_names.filter (fun f => byte &&& f.1 ≠ 0)).map (fun f => f.2)

/-- The firmware-flags part of a description: nothing when no named flag is
set, otherwise the separator and the `+`-joined names. -/
def spec_flags_part (byte : Nat) : Str :=
  if spec_named_flags byte = [] then []
  else ", ".toList ++ List.intercalate "+".toList (spec_named_flags byte)

/-! ## `send_command` (lines 582-606) and `parse_commands` (lines 804-849) -/

/-- The `send_command` member: the byte string handed to `write` (the whole of
`command`, `command.length()` bytes).  The echo on `std::cout` and the
`perror` of a failed write do not change what is handed over. -/
def send_command (cmd : Str) : Str :=
  let command := (convert_cansend_format cmd).result
  if command.isEmpty || command.getLast? != some '\r' then command ++ ['\r'] else command

/-- How the inner `while (read(STDIN_FILENO, &ch, 1) > 0)` loop stops. -/
inductive LineEnd where
  /-- A newline or carriage return was read (`break` at line 706). -/
  | submitted
  /-- Character 3 was read (`running = false; break` at lines 718-719). -/
  | interrupted
  /-- The keystrokes so far are used up: `read` waits for the next one
  (`VMIN = 1`, `VTIME = 0` on a terminal, lines 108-111). -/
  | waiting
  deriving DecidableEq, Repr

/-- The state after the inner loop: how it stopped, `input_buffer`, and the
keystrokes not read yet. -/
structure ReadLine where
  ending : LineEnd
  input_buffer : Str
  rest : List Char
  deriving DecidableEq, Repr

/-- The inner loop of lines 701-726 on the keystrokes `keys`.  `ch` is a
`char`: a byte above 127 is negative and fails `ch >= 32`, like a character
above 126 here. -/
def read_line : List Char → Str → ReadLine
  | [], input_buffer => ⟨.waiting, input_buffer, []⟩
  | ch :: keys, input_buffer =>
    if ch = '\n' ∨ ch = '\r' then ⟨.submitted, input_buffer, keys⟩
    else if ch = Char.ofNat 127 ∨ ch = Char.ofNat 8 then
      read_line keys (if !input_buffer.isEmpty then input_buffer.dropLast else input_buffer)
    else if ch = Char.ofNat 3 then ⟨.interrupted, input_buffer, keys⟩
    else if 32 ≤ ch.toNat ∧ ch.toNat < 127 then read_line keys (input_buffer ++ [ch])
    else read_line keys input_buffer

/-- The interactive loop as far as the keystrokes go: the flag `running`, the
arguments of the calls of `send_command` in order, and the line in progress
when the loop waits for more keystrokes. -/
structure Terminal where
  running : Bool
  sent : List Str
  input_buffer : Str
  deriving DecidableEq, Repr

/-- The outer loop `while (running)` of lines 694-742, with a bound on the
number of iterations. -/
def run_loop : Nat → List Char → Terminal
  | 0, _ => ⟨true, [], []⟩
  | fuel + 1, keys =>
    let r := read_line keys []
    match r.ending with
    | .waiting => ⟨true, [], r.input_buffer⟩
    | .interrupted => ⟨false, [], r.input_buffer⟩
    | .submitted =>
      if !r.input_buffer.isEmpty then
        if r.input_buffer = "quit".toList ∨ r.input_buffer = "exit".toList then
          ⟨false, [], r.input_buffer⟩
        else
          let t := run_loop fuel r.rest
          { t with sent := r.input_buffer :: t.sent }
      else run_loop fuel r.rest

/-- The interactive loop of `run_terminal` on the keystrokes `keys`.  Every
iteration that goes on reads a newline, so `length + 1` iterations are
enough. -/
def run_terminal (keys : List Char) : Terminal :=
  run_loop (keys.length + 1) keys

/-! ## The specification's reading of the session -/

/-- The pieces obtained by splitting a text at every character that `sep`
accepts (one more piece than separators). -/
def spec_split_at (sep : Char → Bool) : Str → List Str
  | [] => [[]]
  | c :: cs =>
    if sep c then [] :: spec_split_at sep cs
    else
      match spec_split_at sep cs with
      | [] => [[c]]
      | p :: ps => (c :: p) :: ps

/-- The interrupt character. -/
def spec_interrupt : Char := Char.ofNat 3

/-- Line editing: printable characters 32..126 append, 127 or 8 removes the
last buffered character if any, every other character is ignored. -/
def spec_edit (line : Str) (ch : Char) : Str :=
  if 32 ≤ ch.toNat ∧ ch.toNat ≤ 126 then line ++ [ch]
  else if ch.toNat = 127 ∨ ch.toNat = 8 then line.dropLast
  else line

/-- The text of a line typed with the keystrokes `line_keys`. -/
def spec_line_text (line_keys : List Char) : Str := line_keys.foldl spec_edit []

/-- The submitted lines before the first interrupt character: the keystrokes
before the first interrupt are split at every newline or carriage return; the
last piece is the line in progress, the others are submitted. -/
def spec_submitted_lines (keys : List Char) : List Str :=
  ((spec_split_at (fun c => c == '\n' || c == '\r')
      (keys.takeWhile (· ≠ spec_interrupt))).dropLast).map spec_line_text

/-- A line that ends the session. -/
def spec_is_quit (line : Str) : Bool := line == "quit".toList || line == "exit".toList

/-- The commands to send: the submitted non-empty lines, in order, before the
first one equal to `quit` or `exit`. -/
def spec_commands (keys : List Char) : List Str :=
  ((spec_submitted_lines keys).filter (fun l => !l.isEmpty)).takeWhile (fun l => !spec_is_quit l)

/-! ## The session: `run_terminal` (lines 676-750) beside `receive_thread_func`
(lines 320-373)

Two threads share the atomic flag `running`.  Each step below is the next
statement of one thread and touches `running` at most once; a schedule says
which thread moves next. -/

/-- Where the receiver thread is in `receive_thread_func`. -/
inductive RxPc where
  /-- The thread is not created yet. -/
  | not_started
  /-- At the test of `while (running)` (line 324). -/
  | check
  /-- At `read(fd, ...)` (line 326). -/
  | read
  /-- After the read and the display, at `usleep` (line 371). -/
  | sleep
  /-- The function has returned. -/
  | done
  deriving DecidableEq, Repr

/-- Where the main thread is in `run_terminal`. -/
inductive MainPc where
  /-- Before `running = true` (line 678). -/
  | start
  /-- Before the creation of `rx_thread` (line 681). -/
  | spawn
  /-- At the test of `while (running)` (line 694). -/
  | loop_head
  /-- In the inner loop that reads keystrokes (lines 696-726). -/
  | read_keys
  /-- At `if (!running) break;` (line 728), with `input_buffer`. -/
  | check (input_buffer : Str)
  /-- At the processing of the line (lines 732-741), with `input_buffer`. -/
  | process (input_buffer : Str)
  /-- At `restore_stdin()` (line 744). -/
  | restore
  /-- At `rx_thread.join()` (line 747). -/
  | join
  /-- At the output of `Terminal closed.` (line 749). -/
  | report
  /-- After `run_terminal`. -/
  | finished
  deriving DecidableEq, Repr

/-- The state of a session.  `rx_checks_true`, `rx_reads`, `rx_saw_false` and
`closed_reported` record what has happened: the tests of `running` by the
receiver that found it true, its reads of the serial link, whether it has
found the flag false, and whether `Terminal closed.` has been written. -/
structure Session where
  running : Bool
  main : MainPc
  rx : RxPc
  keys : List Char
  written : List Str
  rx_checks_true : Nat
  rx_reads : Nat
  rx_saw_false : Bool
  closed_reported : Bool
  deriving DecidableEq, Repr

/-- Who moves next: the main thread, the receiver thread, or a call of
`stop()` (line 752) from outside. -/
inductive Action where
  | main
  | rx
  | stop
  deriving DecidableEq, Repr

/-- The next statement of the receiver thread; `none` when it cannot move. -/
def rx_step (s : Session) : Option Session :=
  match s.rx with
  | .not_started => none
  | .check =>
    if s.running then some { s with rx := .read, rx_checks_true := s.rx_checks_true + 1 }
    else some { s with rx := .done, rx_saw_false := true }
  | .read => some { s with rx := .sleep, rx_reads := s.rx_reads + 1 }
  | .sleep => some { s with rx := .check }
  | .done => none

/-- The next statement of the main thread; `none` when it cannot move (it
waits for a keystroke, waits in `join`, or has finished). -/
def main_step (s : Session) : Option Session :=
  match s.main with
  | .start => some { s with running := true, main := .spawn }
  | .spawn => some { s with rx := .check, main := .loop_head }
  | .loop_head => some { s with main := if s.running then .read_keys else .restore }
  | .read_keys =>
    let r := read_line s.keys []
    match r.ending with
    | .waiting => none
    | .submitted => some { s with keys := r.rest, main := .check r.input_buffer }
    | .interrupted =>
      some { s with keys := r.rest, running := false, main := .check r.input_buffer }
  | .check input_buffer =>
    some { s with main := if s.running then .process input_buffer else .restore }
  | .process input_buffer =>
    if !input_buffer.isEmpty then
      if input_buffer = "quit".toList ∨ input_buffer = "exit".toList then
        some { s with running := false, main := .restore }
      else
        some { s with written := s.written ++ [send_command input_buffer], main := .loop_head }
    else some { s with main := .loop_head }
  | .restore => some { s with main := .join }
  | .join => if s.rx = .done then some { s with main := .report } else none
  | .report => some { s with main := .finished, closed_reported := true }
  | .finished => none

/-- One step of the session. -/
def step (s : Session) : Action → Option Session
  | .main => main_step s
  | .rx => rx_step s
  | .stop => some { s with running := false }

/-- The session after a schedule; `none` when the schedule asks a thread to
move that cannot. -/
def run (s : Session) : List Action → Option Session
  | [] => some s
  | a :: schedule =>
    match step s a with
    | none => none
    | some s2 => run s2 schedule

/-- The session at the call of `run_terminal`, with the keystrokes to come. -/
def session_start (keys : List Char) : Session :=
  ⟨false, .start, .not_started, keys, [], 0, 0, false, false⟩

/-- What holds in every state of a session: every read of the receiver follows
its own test of `running` that found the flag true; once the receiver has
found the flag false it has returned; the main thread is past `join` only
when the receiver has returned; `Terminal closed.` is written only by a
main thread that has finished; and the receiver thread does not exist before
the main thread creates it. -/
def session_invariant (s : Session) : Prop :=
  s.rx_checks_true = s.rx_reads + (if s.rx = .read then 1 else 0) ∧
  (s.rx_saw_false = true → s.rx = .done) ∧
  (s.main = .report ∨ s.main = .finished → s.rx = .done) ∧
  (s.closed_reported = true → s.main = .finished) ∧
  (s.main = .start ∨ s.main = .spawn → s.rx = .not_started)

/-! ## Theorems -/

/-- C1 (as stated, refuted): for the first documented example the code returns
the frame with the one-character length code `4` directly after the id, not
the documented text with `04`. -/
theorem convert_cansend_format_documented_example_fails :
    (convert_cansend_format "t123#DEADBEEF".toList).result = "t1234DEADBEEF".toList ∧
    (convert_cansend_format "t123#DEADBEEF".toList).result ≠ "t12304DEADBEEF".toList := by
  decide

/-- C1 (amended): on the four documented inputs `convert_cansend_format`
reports no error and returns packet type, padded id, ONE length character and
the data: `t1234DEADBEEF`, `t7E0411223344`, `T18AABBCC3112233` and `r1230`. -/
theorem convert_cansend_format_examples :
    convert_cansend_format "t123#DEADBEEF".toList = ⟨"t1234DEADBEEF".toList, none⟩ ∧
    convert_cansend_format "t7E0#11.22.33.44".toList = ⟨"t7E0411223344".toList, none⟩ ∧
    convert_cansend_format "T18AABBCC#112233".toList = ⟨"T18AABBCC3112233".toList, none⟩ ∧
    convert_cansend_format "r123#".toList = ⟨"r1230".toList, none⟩ := by
  refine ⟨?_, ?_, ?_, ?_⟩ <;> decide

/-! ### Searching and splitting -/

theorem find_append (c : Char) (pre rest : Str) (h : c ∉ pre) :
    find c (pre ++ c :: rest) = some pre.length := by
  induction pre with
  | nil => simp [find]
  | cons x xs ih =>
    have hx : x ≠ c := fun e => h (by simp [e])
    have hxs : c ∉ xs := fun e => h (by simp [e])
    simp [find, hx, ih hxs]

theorem find_eq_none (c : Char) (s : Str) (h : c ∉ s) : find c s = none := by
  induction s with
  | nil => simp [find]
  | cons x xs ih =>
    have hx : x ≠ c := fun e => h (by simp [e])
    have hxs : c ∉ xs := fun e => h (by simp [e])
    simp [find, hx, ih hxs]

theorem split_first (c : Char) (s : Str) (h : c ∈ s) :
    ∃ pre rest, s = pre ++ c :: rest ∧ c ∉ pre := by
  induction s with
  | nil => simp at h
  | cons x xs ih =>
    by_cases hx : x = c
    · exact ⟨[], xs, by simp [hx], by simp⟩
    · have hxs : c ∈ xs := by
        rcases List.mem_cons.mp h with e | e
        · exact absurd e.symm hx
        · exact e
      obtain ⟨pre, rest, e, hn⟩ := ih hxs
      refine ⟨x :: pre, rest, by simp [e], ?_⟩
      simp only [List.mem_cons, not_or]
      exact ⟨fun e => hx e.symm, hn⟩

theorem takeWhile_ne_append (c : Char) (pre rest : Str) (h : c ∉ pre) :
    (pre ++ c :: rest).takeWhile (· ≠ c) = pre := by
  induction pre with
  | nil => simp
  | cons x xs ih =>
    have hx : x ≠ c := fun e => h (by simp [e])
    have hxs : c ∉ xs := fun e => h (by simp [e])
    rw [List.cons_append, List.takeWhile_cons_of_pos (by simpa using hx), ih hxs]

theorem dropWhile_ne_append (c : Char) (pre rest : Str) (h : c ∉ pre) :
    (pre ++ c :: rest).dropWhile (· ≠ c) = c :: rest := by
  induction pre with
  | nil => simp
  | cons x xs ih =>
    have hx : x ≠ c := fun e => h (by simp [e])
    have hxs : c ∉ xs := fun e => h (by simp [e])
    rw [List.cons_append, List.dropWhile_cons_of_pos (by simpa using hx), ih hxs]

/-- The code's split of a frame `packet_type :: id ++ '#' :: data`. -/
theorem convert_split (pt : Char) (idt rest : Str) (h : '#' ∉ idt) (hpt : pt ≠ '#') :
    find '#' (pt :: (idt ++ '#' :: rest)) = some (idt.length + 1) ∧
    substr (pt :: (idt ++ '#' :: rest)) 1 (idt.length + 1 - 1) = idt ∧
    substr_from (pt :: (idt ++ '#' :: rest)) (idt.length + 1 + 1) = rest := by
  refine ⟨?_, ?_, ?_⟩
  · have := find_append '#' (pt :: idt) rest (by simp [h, Ne.symm hpt])
    simpa using this
  · simp [substr]
  · simp [substr_from]


theorem mem_packet_types (pt : Char) :
    pt ∈ spec_packet_types ↔
      ¬ (pt ≠ 't' ∧ pt ≠ 'T' ∧ pt ≠ 'r' ∧ pt ≠ 'R' ∧ pt ≠ 'd' ∧ pt ≠ 'D' ∧ pt ≠ 'b' ∧ pt ≠ 'B') := by
  simp only [spec_packet_types, List.mem_cons, List.mem_singleton, List.not_mem_nil, or_false]
  tauto

theorem packet_type_ne_hash (pt : Char) (h : pt ∈ spec_packet_types) : pt ≠ '#' := by
  intro e
  subst e
  revert h
  decide

/-- The code on a frame `packet_type :: id ++ '#' :: data` with a valid packet
type: the chain of checks on `id` and the cleaned `data`. -/
theorem convert_frame (pt : Char) (idt rest : Str) (h : '#' ∉ idt)
    (hpt : pt ∈ spec_packet_types) :
    convert_cansend_format (pt :: (idt ++ '#' :: rest)) =
      (let input := pt :: (idt ++ '#' :: rest)
       let clean_data := rest.filter (fun c => c ≠ '.' ∧ c ≠ ' ')
       if ¬ clean_data.all isxdigit then ⟨input, some (.invalid_hex_data clean_data)⟩
       else if clean_data.length % 2 ≠ 0 then ⟨input, some .odd_length⟩
       else if clean_data.length / 2 > 64 then ⟨input, some .data_too_long⟩
       else if idt.length > spec_id_width pt then
         ⟨input, some (if pt ∈ spec_extended_types then .extended_id_too_long
                        else .standard_id_too_long)⟩
       else if ¬ idt.all isxdigit then ⟨input, some (.invalid_can_id idt)⟩
       else ⟨spec_wire_frame pt idt clean_data, none⟩) := by
  obtain ⟨h1, h2, h3⟩ := convert_split pt idt rest h (packet_type_ne_hash pt hpt)
  have hpt2 := (mem_packet_types pt).mp hpt
  unfold convert_cansend_format
  simp only [h1]
  rw [if_neg hpt2]
  simp only [h2, h3]
  have hw8 : (pt = 'T' ∨ pt = 'R' ∨ pt = 'D' ∨ pt = 'B') → spec_id_width pt = 8 := by
    intro hh; simp [spec_id_width, spec_extended_types, hh]
  have hw3 : ¬ (pt = 'T' ∨ pt = 'R' ∨ pt = 'D' ∨ pt = 'B') → spec_id_width pt = 3 := by
    intro hh; simp [spec_id_width, spec_extended_types, hh]
  have hm : pt ∈ spec_extended_types ↔ (pt = 'T' ∨ pt = 'R' ∨ pt = 'D' ∨ pt = 'B') := by
    simp [spec_extended_types]
  simp only [Nat.cast_ofNat, gt_iff_lt, Nat.ofNat_lt_cast, decide_eq_true_eq, hm]
  by_cases hext : (pt = 'T' ∨ pt = 'R' ∨ pt = 'D' ∨ pt = 'B')
  · rw [hw8 hext]
    simp only [hext, if_true]
    split_ifs <;> first | rfl | simp [spec_wire_frame, hw8 hext]
  · rw [hw3 hext]
    simp only [hext, if_false]
    split_ifs <;> first | rfl | simp [spec_wire_frame, hw3 hext]

theorem clean_filter_eq (rest : Str) :
    rest.filter (fun c => !(c == '.' || c == ' ')) =
      rest.filter (fun c => decide (c ≠ '.' ∧ c ≠ ' ')) := by
  apply List.filter_congr
  intro c _
  by_cases h1 : c = '.' <;> by_cases h2 : c = ' ' <;> simp [h1, h2]

/-- The specification's split of a frame agrees with the shape
`packet_type :: id ++ '#' :: data`. -/
theorem spec_split (pt : Char) (idt rest : Str) (h : '#' ∉ idt) (hpt : pt ≠ '#') :
    spec_id_text (pt :: (idt ++ '#' :: rest)) = idt ∧
    spec_clean_data (pt :: (idt ++ '#' :: rest)) =
      rest.filter (fun c => decide (c ≠ '.' ∧ c ≠ ' ')) := by
  have hn : '#' ∉ pt :: idt := by simp [h, Ne.symm hpt]
  have e : pt :: (idt ++ '#' :: rest) = (pt :: idt) ++ '#' :: rest := by simp
  constructor
  · rw [spec_id_text, e, takeWhile_ne_append '#' (pt :: idt) rest hn]
    rfl
  · rw [spec_clean_data, spec_data_text, e, dropWhile_ne_append '#' (pt :: idt) rest hn]
    exact clean_filter_eq rest

/-- Every input with a `#` and a valid first character is a frame
`packet_type :: id ++ '#' :: data`. -/
theorem frame_shape (input : Str) (hhash : '#' ∈ input)
    (hpt : ∃ p ∈ spec_packet_types, input.head? = some p) :
    ∃ pt idt rest, input = pt :: (idt ++ '#' :: rest) ∧ '#' ∉ idt ∧ pt ∈ spec_packet_types := by
  obtain ⟨p, hp, hhead⟩ := hpt
  obtain ⟨pre, rest, e, hn⟩ := split_first '#' input hhash
  cases pre with
  | nil =>
    subst e
    simp at hhead
    subst hhead
    exact absurd rfl (packet_type_ne_hash _ hp)
  | cons x xs =>
    subst e
    simp at hhead
    subst hhead
    refine ⟨x, xs, rest, by simp, ?_, hp⟩
    intro hc
    exact hn (by simp [hc])

/-- The code on an input with a `#` whose first character is not a packet type. -/
theorem convert_bad_type (input : Str) (hhash : '#' ∈ input)
    (hpt : ¬ ∃ p ∈ spec_packet_types, input.head? = some p) :
    ∃ pt, input.head? = some pt ∧
      convert_cansend_format input = ⟨input, some (.invalid_packet_type pt)⟩ := by
  obtain ⟨pre, rest, e, hn⟩ := split_first '#' input hhash
  have hf := find_append '#' pre rest hn
  rw [← e] at hf
  cases input with
  | nil => simp at hhash
  | cons pt tl =>
    refine ⟨pt, rfl, ?_⟩
    have hnot : pt ∉ spec_packet_types := by
      intro hc
      exact hpt ⟨pt, hc, rfl⟩
    have hnot2 := (not_congr (mem_packet_types pt)).mp hnot
    rw [not_not] at hnot2
    unfold convert_cansend_format
    simp only [hf]
    rw [if_pos hnot2]

/-- C2: a well-formed shorthand frame is translated without error into packet
type, zero-padded id, one length character and the cleaned data.  The input
contains a `#`, starts with one of `t,T,r,R,d,D,b,B`, its id text is hex of
length at most 3 (or 8 for `T,R,D,B`), and its data text without `.` and
spaces is hex of even length at most 128. -/
theorem convert_cansend_format_valid (input : Str) (hhash : '#' ∈ input)
    (hpt : ∃ p ∈ spec_packet_types, input.head? = some p)
    (hid : ∀ c ∈ spec_id_text input, isxdigit c = true)
    (hlen : (spec_id_text input).length ≤ spec_id_width (input.headD 'x'))
    (hdata : ∀ c ∈ spec_clean_data input, isxdigit c = true)
    (heven : (spec_clean_data input).length % 2 = 0)
    (hmax : (spec_clean_data input).length ≤ 128) :
    convert_cansend_format input =
      ⟨spec_wire_frame (input.headD 'x') (spec_id_text input) (spec_clean_data input), none⟩ := by
  obtain ⟨pt, idt, rest, e, hn, hp⟩ := frame_shape input hhash hpt
  subst e
  obtain ⟨e1, e2⟩ := spec_split pt idt rest hn (packet_type_ne_hash pt hp)
  rw [e1] at hid hlen
  rw [e2] at hdata heven hmax
  rw [e1, e2, convert_frame pt idt rest hn hp]
  simp only [List.headD_cons] at hlen ⊢
  have h1 : (List.filter (fun c => decide (c ≠ '.' ∧ c ≠ ' ')) rest).all isxdigit = true :=
    List.all_eq_true.mpr hdata
  have h2 : idt.all isxdigit = true := List.all_eq_true.mpr hid
  have h3 : ¬ (List.filter (fun c => decide (c ≠ '.' ∧ c ≠ ' ')) rest).length / 2 > 64 := by
    omega
  have h4 : ¬ idt.length > spec_id_width pt := by omega
  simp only [h1, h2, not_true_eq_false, if_false, heven, ne_eq, h3, h4]

/-- C2 at the frame `T1AB#11.22 33`: the result is `T000001AB3112233`. -/
theorem convert_cansend_format_valid_witness :
    convert_cansend_format "T1AB#11.22 33".toList = ⟨"T000001AB3112233".toList, none⟩ :=
  convert_cansend_format_valid "T1AB#11.22 33".toList (by decide) (by decide) (by decide)
    (by decide) (by decide) (by decide) (by decide)

/-- C3: a string without `#` is returned unchanged and no error is reported. -/
theorem convert_cansend_format_no_hash (input : Str) (h : '#' ∉ input) :
    convert_cansend_format input = ⟨input, none⟩ := by
  unfold convert_cansend_format
  rw [find_eq_none '#' input h]

/-- C3 at the raw command `t1234DEADBEEF` and at the empty string. -/
theorem convert_cansend_format_no_hash_witness :
    convert_cansend_format "t1234DEADBEEF".toList = ⟨"t1234DEADBEEF".toList, none⟩ ∧
    convert_cansend_format [] = ⟨[], none⟩ :=
  ⟨convert_cansend_format_no_hash "t1234DEADBEEF".toList (by decide),
   convert_cansend_format_no_hash [] (by decide)⟩

/-- C4: on an input with a `#` the code applies the checks in the order of the
specification (packet type, data hex, even length, at most 64 bytes, id
length, id hex): the kind of the reported error is the error of the first
failing check, no error is reported when every check passes, and whenever an
error is reported the input is returned unchanged.  `X123#AA` reports
InvalidPacketType and `t123#ABC` reports OddLength, both returned unchanged. -/
theorem convert_cansend_format_check_order (input : Str) (hhash : '#' ∈ input) :
    (convert_cansend_format input).cerr.map CansendError.kind = spec_first_failure input ∧
    ((convert_cansend_format input).cerr ≠ none →
      (convert_cansend_format input).result = input) ∧
    convert_cansend_format "X123#AA".toList =
      ⟨"X123#AA".toList, some (.invalid_packet_type 'X')⟩ ∧
    convert_cansend_format "t123#ABC".toList = ⟨"t123#ABC".toList, some .odd_length⟩ := by
  refine ⟨?_, ?_, by decide, by decide⟩
  · by_cases hpt : ∃ p ∈ spec_packet_types, input.head? = some p
    · obtain ⟨pt, idt, rest, e, hn, hp⟩ := frame_shape input hhash hpt
      subst e
      obtain ⟨e1, e2⟩ := spec_split pt idt rest hn (packet_type_ne_hash pt hp)
      rw [convert_frame pt idt rest hn hp]
      unfold spec_first_failure
      rw [if_neg (not_not.mpr hpt), e1, e2]
      simp only [List.headD_cons, ← List.all_eq_true]
      split_ifs <;> simp [CansendError.kind]
    · obtain ⟨pt, _, e⟩ := convert_bad_type input hhash hpt
      rw [e]
      unfold spec_first_failure
      rw [if_pos hpt]
      rfl
  · by_cases hpt : ∃ p ∈ spec_packet_types, input.head? = some p
    · obtain ⟨pt, idt, rest, e, hn, hp⟩ := frame_shape input hhash hpt
      subst e
      rw [convert_frame pt idt rest hn hp]
      dsimp only
      split_ifs <;> simp
    · obtain ⟨pt, _, e⟩ := convert_bad_type input hhash hpt
      rw [e]
      intro _
      rfl

/-- C4 at `T123456789#zz`: the data check comes before the id check, so the
error is InvalidHex (for the data), not IdTooLong. -/
theorem convert_cansend_format_check_order_witness :
    (convert_cansend_format "T123456789#zz".toList).cerr.map CansendError.kind =
      some .InvalidHex ∧
    (convert_cansend_format "T123456789#zz".toList).result = "T123456789#zz".toList :=
  ⟨(convert_cansend_format_check_order "T123456789#zz".toList (by decide)).1,
   (convert_cansend_format_check_order "T123456789#zz".toList (by decide)).2.1 (by decide)⟩

/-- C5: the length-code table on 0..64: the decimal digit for 0..8, then `9`
for 9..12, `A` for 13..16, `B` for 17..20, `C` for 21..24, `D` for 25..32,
`E` for 33..48 and `F` for 49..64. -/
theorem encode_dlc_table (byte_count : Nat) (h : byte_count ≤ 64) :
    (byte_count ≤ 8 → encode_dlc byte_count = Nat.digitChar byte_count) ∧
    (9 ≤ byte_count ∧ byte_count ≤ 12 → encode_dlc byte_count = '9') ∧
    (13 ≤ byte_count ∧ byte_count ≤ 16 → encode_dlc byte_count = 'A') ∧
    (17 ≤ byte_count ∧ byte_count ≤ 20 → encode_dlc byte_count = 'B') ∧
    (21 ≤ byte_count ∧ byte_count ≤ 24 → encode_dlc byte_count = 'C') ∧
    (25 ≤ byte_count ∧ byte_count ≤ 32 → encode_dlc byte_count = 'D') ∧
    (33 ≤ byte_count ∧ byte_count ≤ 48 → encode_dlc byte_count = 'E') ∧
    (49 ≤ byte_count ∧ byte_count ≤ 64 → encode_dlc byte_count = 'F') := by
  interval_cases byte_count <;> decide

/-- C5 at 8 bytes (the last digit code) and at 13 bytes (the first `A`). -/
theorem encode_dlc_table_witness : encode_dlc 8 = '8' ∧ encode_dlc 13 = 'A' :=
  ⟨(encode_dlc_table 8 (by decide)).1 (by decide),
   (encode_dlc_table 13 (by decide)).2.2.1 (by decide)⟩

/-- C6 (as stated, refuted): `encode_dlc` does not fail on 65 bytes; it returns
the length code `F`, the same code as for 64 bytes. -/
theorem encode_dlc_65_returns_code :
    encode_dlc 65 = 'F' ∧ encode_dlc 65 = encode_dlc 64 := by
  decide

/-- C6 (amended): for every byte count above 64 `encode_dlc` returns the
length code `F`; the rejection of more than 64 bytes is made by the caller
`convert_cansend_format`, which reports TooLong and returns the frame
unchanged whenever the cleaned hex data of a frame holds `byte_count` bytes. -/
theorem encode_dlc_above_64 (byte_count : Int) (h : 64 < byte_count) :
    encode_dlc byte_count = 'F' ∧
    ∀ (pt : Char) (idt rest : Str), pt ∈ spec_packet_types → '#' ∉ idt →
      (∀ c ∈ rest.filter (fun c => decide (c ≠ '.' ∧ c ≠ ' ')), isxdigit c = true) →
      ((rest.filter (fun c => decide (c ≠ '.' ∧ c ≠ ' '))).length : Int) = 2 * byte_count →
      convert_cansend_format (pt :: (idt ++ '#' :: rest)) =
        ⟨pt :: (idt ++ '#' :: rest), some .data_too_long⟩ := by
  constructor
  · unfold encode_dlc
    have h1 : ¬ byte_count ≤ 8 := by omega
    have h2 : ¬ byte_count ≤ 12 := by omega
    have h3 : ¬ byte_count ≤ 16 := by omega
    have h4 : ¬ byte_count ≤ 20 := by omega
    have h5 : ¬ byte_count ≤ 24 := by omega
    have h6 : ¬ byte_count ≤ 32 := by omega
    have h7 : ¬ byte_count ≤ 48 := by omega
    simp only [h1, h2, h3, h4, h5, h6, h7, if_false]
  · intro pt idt rest hp hn hx hl
    rw [convert_frame pt idt rest hn hp]
    have h1 : (List.filter (fun c => decide (c ≠ '.' ∧ c ≠ ' ')) rest).all isxdigit = true :=
      List.all_eq_true.mpr hx
    have h2 : (List.filter (fun c => decide (c ≠ '.' ∧ c ≠ ' ')) rest).length % 2 = 0 := by
      omega
    have h3 : (List.filter (fun c => decide (c ≠ '.' ∧ c ≠ ' ')) rest).length / 2 > 64 := by
      omega
    simp only [h1, h2, h3, not_true_eq_false, if_false, ne_eq, if_true]

/-- C6 (amended) at 65 bytes: `encode_dlc 65` is `F`, and a frame with 130 hex
digits is rejected by `convert_cansend_format` with TooLong. -/
theorem encode_dlc_above_64_witness :
    encode_dlc 65 = 'F' ∧
    convert_cansend_format ('t' :: ("123".toList ++ '#' :: List.replicate 130 'A')) =
      ⟨'t' :: ("123".toList ++ '#' :: List.replicate 130 'A'), some .data_too_long⟩ :=
  ⟨(encode_dlc_above_64 65 (by decide)).1,
   (encode_dlc_above_64 65 (by decide)).2 't' "123".toList (List.replicate 130 'A')
     (by decide) (by decide)
     (by
       intro c hc
       have hA : c = 'A' := List.eq_of_mem_replicate (List.mem_of_mem_filter hc)
       rw [hA]
       decide)
     (by
       have hf : (List.replicate 130 'A').filter (fun c => decide (c ≠ '.' ∧ c ≠ ' ')) =
           List.replicate 130 'A' := by
         rw [List.filter_eq_self]
         intro c hc
         have hA : c = 'A' := List.eq_of_mem_replicate hc
         rw [hA]
         decide
       rw [hf, List.length_replicate]
       rfl)⟩

theorem encode_dlc_step (k : Nat) (h : k < 64) :
    encode_dlc k ≤ encode_dlc (k + 1 : Nat) ∧
    spec_code_rank (encode_dlc k) ≤ spec_code_rank (encode_dlc (k + 1 : Nat)) := by
  interval_cases k <;> decide

/-- C7: on 0..64 `encode_dlc` is monotonic non-decreasing, both in the order
`0<1<...<8<9<A<B<C<D<E<F` of the length codes and in the order of the
returned characters. -/
theorem encode_dlc_monotone (m n : Nat) (hmn : m ≤ n) (hn : n ≤ 64) :
    spec_code_rank (encode_dlc m) ≤ spec_code_rank (encode_dlc n) ∧
    encode_dlc m ≤ encode_dlc n := by
  induction n with
  | zero =>
    have : m = 0 := by omega
    subst this
    exact ⟨le_refl _, le_refl _⟩
  | succ k ih =>
    by_cases hk : m = k + 1
    · subst hk
      exact ⟨le_refl _, le_refl _⟩
    · obtain ⟨i1, i2⟩ := ih (by omega) (by omega)
      obtain ⟨s1, s2⟩ := encode_dlc_step k (by omega)
      exact ⟨le_trans i1 s2, le_trans i2 s1⟩

/-- C7 at 8 and 9 bytes, the step from the digit codes to the coarse codes,
and at 12 and 64 bytes. -/
theorem encode_dlc_monotone_witness :
    encode_dlc 8 ≤ encode_dlc 9 ∧
    spec_code_rank (encode_dlc 12) ≤ spec_code_rank (encode_dlc 64) :=
  ⟨(encode_dlc_monotone 8 9 (by decide) (by decide)).2,
   (encode_dlc_monotone 12 64 (by decide) (by decide)).1⟩

/-! ### Decoders -/

theorem isxdigit_mem (c : Char) (h : isxdigit c = true) :
    c ∈ "0123456789abcdefABCDEF".toList := by
  have hc : c = Char.ofNat c.toNat := (Char.ofNat_toNat c).symm
  simp only [isxdigit, Bool.or_eq_true, Bool.and_eq_true, decide_eq_true_eq] at h
  have hb : (48 ≤ c.toNat ∧ c.toNat ≤ 57) ∨ (97 ≤ c.toNat ∧ c.toNat ≤ 102) ∨
      (65 ≤ c.toNat ∧ c.toNat ≤ 70) := by
    rcases h with (⟨h1, h2⟩ | ⟨h1, h2⟩) | ⟨h1, h2⟩
    · left; exact ⟨h1, h2⟩
    · right; left; exact ⟨h1, h2⟩
    · right; right; exact ⟨h1, h2⟩
  generalize c.toNat = n at hc hb
  subst hc
  rcases hb with ⟨h1, h2⟩ | ⟨h1, h2⟩ | ⟨h1, h2⟩ <;> interval_cases n <;> decide

theorem hex_digit_value_eq (c : Char) (h : isxdigit c = true) :
    hex_digit_value c = spec_hex_value c ∧ spec_hex_value c ≤ 15 := by
  have hall : ∀ d ∈ "0123456789abcdefABCDEF".toList,
      hex_digit_value d = spec_hex_value d ∧ spec_hex_value d ≤ 15 := by
    decide
  exact hall c (isxdigit_mem c h)

theorem stoi_hex_pair (a b : Char) (ha : isxdigit a = true) (hb : isxdigit b = true) :
    stoi_hex [a, b] = spec_hex_pair a b ∧ spec_hex_pair a b ≤ 255 := by
  obtain ⟨ea, la⟩ := hex_digit_value_eq a ha
  obtain ⟨eb, lb⟩ := hex_digit_value_eq b hb
  constructor
  · simp [stoi_hex, List.takeWhile, ha, hb, spec_hex_pair, ea, eb]
    omega
  · unfold spec_hex_pair
    omega

theorem to_string_nat (n : Nat) : to_string (n : Int) = (Nat.repr n).toList := by
  unfold to_string
  have : ¬ ((n : Int) < 0) := by omega
  rw [if_neg this]
  rfl

theorem describe_error_code_ne_nil (error_code : Str) : describe_error_code error_code ≠ [] := by
  unfold describe_error_code
  simp

/-- The code on a response whose first `E` is followed by at least eight
characters. -/
theorem get_error_description_frame (pre win rest : Str) (h : 'E' ∉ pre)
    (hl : win.length = 8) :
    get_error_description (pre ++ 'E' :: (win ++ rest)) =
      if win.all isxdigit then describe_error_code win else [] := by
  unfold get_error_description
  rw [find_append 'E' pre (win ++ rest) h]
  have hg : ¬ (pre.length + 8 ≥ (pre ++ 'E' :: (win ++ rest)).length) := by
    simp
    omega
  have hs : substr (pre ++ 'E' :: (win ++ rest)) (pre.length + 1) 8 = win := by
    unfold substr
    have e : pre ++ 'E' :: (win ++ rest) = (pre ++ ['E']) ++ (win ++ rest) := by simp
    have e2 : pre.length + 1 = (pre ++ ['E']).length := by simp
    rw [e, e2, List.drop_left, ← hl, List.take_left]
  simp only [hs]
  rw [if_neg hg]
  by_cases hx : win.all isxdigit = true
  · simp [hx]
  · simp [hx]

/-- The code on a response whose first `E` is followed by fewer than eight
characters. -/
theorem get_error_description_short (pre tail : Str) (h : 'E' ∉ pre)
    (hl : tail.length < 8) :
    get_error_description (pre ++ 'E' :: tail) = [] := by
  unfold get_error_description
  rw [find_append 'E' pre tail h]
  have hg : pre.length + 8 ≥ (pre ++ 'E' :: tail).length := by
    simp
    omega
  simp only []
  rw [if_pos hg]

/-- C8: `get_feedback_description` yields nothing when the response has no `#`
or when its first `#` is the last character; otherwise the answer is decided
by the character `c` right after the first `#` alone, by the table of the
specification (Success for carriage return or newline, InvalidCommand `1`, ...,
HardwareResetRequired `<`, nothing for any other `c`), whatever follows `c`,
later `#` included.  Every event has a non-empty annotation. -/
theorem get_feedback_description_table (pre : Str) (c : Char) (rest : Str)
    (h : '#' ∉ pre) :
    get_feedback_description pre = [] ∧
    get_feedback_description (pre ++ ['#']) = [] ∧
    get_feedback_description (pre ++ '#' :: c :: rest) =
      ((spec_feedback_event c).map FeedbackEvent.text).getD [] ∧
    ∀ e : FeedbackEvent, e.text ≠ [] := by
  refine ⟨?_, ?_, ?_, ?_⟩
  · unfold get_feedback_description
    rw [find_eq_none '#' pre h]
  · unfold get_feedback_description
    rw [find_append '#' pre [] h]
    have hg : ¬ (pre.length + 1 < (pre ++ ['#']).length) := by simp
    simp only []
    rw [dif_neg hg]
  · unfold get_feedback_description
    rw [find_append '#' pre (c :: rest) h]
    have hg : pre.length + 1 < (pre ++ '#' :: c :: rest).length := by
      simp
    have hc : (pre ++ '#' :: c :: rest)[pre.length + 1] = c := by
      rw [List.getElem_append_right (by omega)]
      simp
    simp only []
    rw [dif_pos hg]
    simp only [hc]
    unfold spec_feedback_event
    by_cases h0 : c = '\r' ∨ c = '\n'
    · rw [if_pos h0, if_pos h0]; rfl
    rw [if_neg h0, if_neg h0]
    by_cases h1 : c = '1'
    · rw [if_pos h1, if_pos h1]; rfl
    rw [if_neg h1, if_neg h1]
    by_cases h2 : c = '2'
    · rw [if_pos h2, if_pos h2]; rfl
    rw [if_neg h2, if_neg h2]
    by_cases h3 : c = '3'
    · rw [if_pos h3, if_pos h3]; rfl
    rw [if_neg h3, if_neg h3]
    by_cases h4 : c = '4'
    · rw [if_pos h4, if_pos h4]; rfl
    rw [if_neg h4, if_neg h4]
    by_cases h5 : c = '5'
    · rw [if_pos h5, if_pos h5]; rfl
    rw [if_neg h5, if_neg h5]
    by_cases h6 : c = '6'
    · rw [if_pos h6, if_pos h6]; rfl
    rw [if_neg h6, if_neg h6]
    by_cases h7 : c = '7'
    · rw [if_pos h7, if_pos h7]; rfl
    rw [if_neg h7, if_neg h7]
    by_cases h8 : c = '8'
    · rw [if_pos h8, if_pos h8]; rfl
    rw [if_neg h8, if_neg h8]
    by_cases h9 : c = '9'
    · rw [if_pos h9, if_pos h9]; rfl
    rw [if_neg h9, if_neg h9]
    by_cases h10 : c = ':'
    · rw [if_pos h10, if_pos h10]; rfl
    rw [if_neg h10, if_neg h10]
    by_cases h11 : c = ';'
    · rw [if_pos h11, if_pos h11]; rfl
    rw [if_neg h11, if_neg h11]
    by_cases h12 : c = '<'
    · rw [if_pos h12, if_pos h12]; rfl
    rw [if_neg h12, if_neg h12]
    rfl
  · intro e
    cases e <;> decide

/-- C8 on `z#7#1` (TxBufferFull, the later `#1` is ignored), on `OK#` followed
by a carriage return (Success) and on `V1013` and `T#` (nothing). -/
theorem get_feedback_description_table_witness :
    get_feedback_description "V1013".toList = [] ∧
    get_feedback_description "T#".toList = [] ∧
    get_feedback_description "z#7#1".toList = FeedbackEvent.TxBufferFull.text ∧
    get_feedback_description "OK#\r".toList = FeedbackEvent.Success.text :=
  ⟨(get_feedback_description_table "V1013".toList 'x' [] (by decide)).1,
   (get_feedback_description_table "T".toList 'x' [] (by decide)).2.1,
   (get_feedback_description_table "z".toList '7' "#1".toList (by decide)).2.2.1,
   (get_feedback_description_table "OK".toList '\r' [] (by decide)).2.2.1⟩

/-- C9: `get_error_description` yields a report exactly when the response
contains an `E`, at least eight characters follow the first `E`, and the first
eight of them are hex digits.  When it yields a report the eight characters it
decodes lie inside the response: the first `E` is at a position `pos` with
`pos + 1 + 8 ≤ length`.  A response with exactly eight characters after the
`E`, such as `E00000000`, is accepted. -/
theorem get_error_description_accepts (response : Str) :
    (get_error_description response ≠ [] ↔
      ∃ pre win rest, response = pre ++ 'E' :: (win ++ rest) ∧ 'E' ∉ pre ∧
        win.length = 8 ∧ ∀ c ∈ win, isxdigit c = true) ∧
    (get_error_description response ≠ [] →
      ∃ pos, find 'E' response = some pos ∧ pos + 1 + 8 ≤ response.length ∧
        (substr response (pos + 1) 8).length = 8) ∧
    get_error_description "E00000000".toList ≠ [] := by
  have key : get_error_description response ≠ [] →
      ∃ pre win rest, response = pre ++ 'E' :: (win ++ rest) ∧ 'E' ∉ pre ∧
        win.length = 8 ∧ ∀ c ∈ win, isxdigit c = true := by
    intro hne
    by_cases hE : 'E' ∈ response
    · obtain ⟨pre, tail, e, hn⟩ := split_first 'E' response hE
      subst e
      by_cases hl : tail.length < 8
      · exact absurd (get_error_description_short pre tail hn hl) hne
      · have hw : (tail.take 8).length = 8 := by
          rw [List.length_take]
          omega
        have et : tail = tail.take 8 ++ tail.drop 8 := (List.take_append_drop 8 tail).symm
        refine ⟨pre, tail.take 8, tail.drop 8, by rw [← et], hn, hw, ?_⟩
        rw [et, get_error_description_frame pre _ _ hn hw] at hne
        by_cases hx : (tail.take 8).all isxdigit = true
        · exact List.all_eq_true.mp hx
        · rw [if_neg hx] at hne
          exact absurd rfl hne
    · exfalso
      apply hne
      unfold get_error_description
      rw [find_eq_none 'E' response hE]
  refine ⟨⟨key, ?_⟩, ?_, by decide⟩
  · rintro ⟨pre, win, rest, e, hn, hl, hx⟩
    subst e
    rw [get_error_description_frame pre win rest hn hl, if_pos (List.all_eq_true.mpr hx)]
    exact describe_error_code_ne_nil win
  · intro hne
    obtain ⟨pre, win, rest, e, hn, hl, _⟩ := key hne
    subst e
    refine ⟨pre.length, find_append 'E' pre (win ++ rest) hn, ?_, ?_⟩
    · simp
      omega
    · unfold substr
      rw [List.length_take, List.length_drop]
      simp
      omega

theorem bus_status_text (d : Char) :
    (if d = '0' then "Bus Active".toList
     else if d = '1' then "Warning Level".toList
     else if d = '2' then "Bus Passive".toList
     else if d = '3' then "Bus Off".toList
     else "Unknown Bus Status".toList) = (spec_bus_status d).text := by
  unfold spec_bus_status
  split_ifs <;> rfl

theorem protocol_error_text (d : Char) (desc : Str) :
    (if d ≠ '0' then
      desc ++ ", ".toList ++
        (if d = '1' then "Bit stuffing error".toList
         else if d = '2' then "Frame format error".toList
         else if d = '3' then "No ACK received".toList
         else if d = '4' then "Recessive bit error".toList
         else if d = '5' then "Dominant bit error".toList
         else if d = '6' then "CRC error".toList
         else "Unknown protocol error".toList)
     else desc) = desc ++ (spec_protocol_error d).text := by
  unfold spec_protocol_error
  by_cases h0 : d = '0'
  · simp [h0, ProtocolError.text]
  · rw [if_pos h0, if_neg h0, List.append_assoc]
    congr 1
    split_ifs <;> rfl

/-- The description built from eight validated characters, field by field. -/
theorem describe_error_code_fields (d1 d2 d3 d4 d5 d6 d7 d8 : Char)
    (hhex : ∀ c ∈ [d1, d2, d3, d4, d5, d6, d7, d8], isxdigit c = true) :
    describe_error_code [d1, d2, d3, d4, d5, d6, d7, d8] =
      " (".toList ++ (spec_bus_status d1).text ++ (spec_protocol_error d2).text ++
        fw_flags_desc (spec_hex_pair d3 d4) ++
        ", Tx Errors: ".toList ++ (Nat.repr (spec_hex_pair d5 d6)).toList ++
        ", Rx Errors: ".toList ++ (Nat.repr (spec_hex_pair d7 d8)).toList ++ ")".toList := by
  have h3 := hhex d3 (by simp)
  have h4 := hhex d4 (by simp)
  have h5 := hhex d5 (by simp)
  have h6 := hhex d6 (by simp)
  have h7 := hhex d7 (by simp)
  have h8 := hhex d8 (by simp)
  have s1 : substr [d1, d2, d3, d4, d5, d6, d7, d8] 2 2 = [d3, d4] := rfl
  have s2 : substr [d1, d2, d3, d4, d5, d6, d7, d8] 4 2 = [d5, d6] := rfl
  have s3 : substr [d1, d2, d3, d4, d5, d6, d7, d8] 6 2 = [d7, d8] := rfl
  have g0 : [d1, d2, d3, d4, d5, d6, d7, d8].getD 0 (Char.ofNat 0) = d1 := rfl
  have g1 : [d1, d2, d3, d4, d5, d6, d7, d8].getD 1 (Char.ofNat 0) = d2 := rfl
  unfold describe_error_code
  simp only [s1, s2, s3, g0, g1, (stoi_hex_pair d3 d4 h3 h4).1, (stoi_hex_pair d5 d6 h5 h6).1,
    (stoi_hex_pair d7 d8 h7 h8).1, to_string_nat, bus_status_text, protocol_error_text]

/-- C10: for an accepted error report window `d1..d8` the description names
the bus status of `d1` (`0` Active, `1` WarningLevel, `2` BusPassive, `3`
BusOff, else Unknown), then the protocol error of `d2` (nothing for `0`, `1`
BitStuffing, ..., `6` Crc, else Unknown), then the firmware flags part of the
hex pair `d3 d4`, then the Tx error count, the value of the hex pair `d5 d6`,
and the Rx error count, the value of `d7 d8`, both at most 255 and written in
decimal.  For `E00000000` the description is
` (Bus Active, Tx Errors: 0, Rx Errors: 0)`. -/
theorem get_error_description_fields (pre rest : Str) (d1 d2 d3 d4 d5 d6 d7 d8 : Char)
    (hpre : 'E' ∉ pre) (hhex : ∀ c ∈ [d1, d2, d3, d4, d5, d6, d7, d8], isxdigit c = true) :
    get_error_description
        (pre ++ 'E' :: d1 :: d2 :: d3 :: d4 :: d5 :: d6 :: d7 :: d8 :: rest) =
      " (".toList ++ (spec_bus_status d1).text ++ (spec_protocol_error d2).text ++
        fw_flags_desc (spec_hex_pair d3 d4) ++
        ", Tx Errors: ".toList ++ (Nat.repr (spec_hex_pair d5 d6)).toList ++
        ", Rx Errors: ".toList ++ (Nat.repr (spec_hex_pair d7 d8)).toList ++ ")".toList ∧
    spec_hex_pair d5 d6 ≤ 255 ∧ spec_hex_pair d7 d8 ≤ 255 ∧
    get_error_description "E00000000".toList =
      " (Bus Active, Tx Errors: 0, Rx Errors: 0)".toList := by
  refine ⟨?_, ?_, ?_, by decide⟩
  · have e : pre ++ 'E' :: d1 :: d2 :: d3 :: d4 :: d5 :: d6 :: d7 :: d8 :: rest =
        pre ++ 'E' :: ([d1, d2, d3, d4, d5, d6, d7, d8] ++ rest) := by simp
    rw [e, get_error_description_frame pre [d1, d2, d3, d4, d5, d6, d7, d8] rest hpre rfl,
      if_pos (List.all_eq_true.mpr hhex)]
    exact describe_error_code_fields d1 d2 d3 d4 d5 d6 d7 d8 hhex
  · exact (stoi_hex_pair d5 d6 (hhex d5 (by simp)) (hhex d6 (by simp))).2
  · exact (stoi_hex_pair d7 d8 (hhex d7 (by simp)) (hhex d8 (by simp))).2

/-- C10 at the reply `E2600FF80` followed by a line feed: BusPassive, Crc, no
flags, Tx count 255 and Rx count 128. -/
theorem get_error_description_fields_witness :
    get_error_description "E2600FF80\n".toList =
      " (Bus Passive, CRC error, Tx Errors: 255, Rx Errors: 128)".toList :=
  (get_error_description_fields [] "\n".toList '2' '6' '0' '0' 'F' 'F' '8' '0'
    (by decide) (by decide)).1

/-! ### Firmware flags -/

set_option maxRecDepth 100000 in
/-- The flags part of the code agrees with the specification on every flag
byte that is zero or has one of the five named bits set. -/
theorem fw_flags_desc_named :
    ∀ byte ∈ List.range 256, (byte = 0 ∨ byte &&& 0x1F ≠ 0) →
      fw_flags_desc byte = spec_flags_part byte := by
  decide

/-- C11 (the code at the failing input): for the accepted report `E30200A0F`
the flag byte is `0x20`, which sets none of the five named flags, yet the code
emits the separator of the flags part: the description reads
` (Bus Off, , Tx Errors: 10, Rx Errors: 15)`.  On `E31050A0F` the description
is the one the claim gives, and on every flag byte that is zero or has a
named bit set the flags part is the `+`-joined list of the claim. -/
theorem fw_flags_desc_unnamed_bits :
    get_error_description "E30200A0F".toList =
      " (Bus Off, , Tx Errors: 10, Rx Errors: 15)".toList ∧
    fw_flags_desc 0x20 = ", ".toList ∧
    spec_flags_part 0x20 = [] ∧
    get_error_description "E31050A0F".toList =
      (" (Bus Off, Bit stuffing error, Rx Failed+CAN Tx buffer overflow, " ++
        "Tx Errors: 10, Rx Errors: 15)").toList ∧
    (∀ byte ∈ List.range 256, (byte = 0 ∨ byte &&& 0x1F ≠ 0) →
      fw_flags_desc byte = spec_flags_part byte) :=
  ⟨by decide, by decide, by decide, by decide, fw_flags_desc_named⟩

/-! ### Commands written to the serial link -/

theorem spec_split_at_ne_nil (sep : Char → Bool) (s : Str) : spec_split_at sep s ≠ [] := by
  induction s with
  | nil => simp [spec_split_at]
  | cons c cs ih =>
    unfold spec_split_at
    split_ifs
    · simp
    · split <;> simp

/-- A text without separators is a single piece. -/
theorem spec_split_at_single (sep : Char → Bool) (p : Str) (h : ∀ c ∈ p, sep c = false) :
    spec_split_at sep p = [p] := by
  induction p with
  | nil => simp [spec_split_at]
  | cons c cs ih =>
    have hc : sep c = false := h c (by simp)
    have ih2 := ih (fun d hd => h d (by simp [hd]))
    unfold spec_split_at
    simp [hc, ih2]

/-- The first piece ends at the first separator. -/
theorem spec_split_at_append (sep : Char → Bool) (p rest : Str) (d : Char)
    (h : ∀ c ∈ p, sep c = false) (hd : sep d = true) :
    spec_split_at sep (p ++ d :: rest) = p :: spec_split_at sep rest := by
  induction p with
  | nil =>
    rw [List.nil_append, spec_split_at, if_pos hd]
  | cons c cs ih =>
    have hc : sep c = false := h c (by simp)
    have ih2 := ih (fun d hd => h d (by simp [hd]))
    rw [List.cons_append, spec_split_at, ih2]
    simp [hc]

theorem char_eq_ofNat_iff (ch : Char) (n : Nat) (hn : (Char.ofNat n).toNat = n) :
    ch = Char.ofNat n ↔ ch.toNat = n := by
  constructor
  · intro e
    rw [e, hn]
  · intro e
    rw [← e, Char.ofNat_toNat]

/-- One keystroke that is neither a submit nor the interrupt edits the buffer
as the specification says. -/
theorem read_line_cons_edit (ch : Char) (keys : List Char) (input_buffer : Str)
    (h : ch ≠ '\n' ∧ ch ≠ '\r' ∧ ch ≠ Char.ofNat 3) :
    read_line (ch :: keys) input_buffer = read_line keys (spec_edit input_buffer ch) := by
  obtain ⟨h1, h2, h3⟩ := h
  have e127 := char_eq_ofNat_iff ch 127 (by decide)
  have e8 := char_eq_ofNat_iff ch 8 (by decide)
  rw [read_line, if_neg (by simp [h1, h2])]
  unfold spec_edit
  by_cases hb : ch = Char.ofNat 127 ∨ ch = Char.ofNat 8
  · rw [if_pos hb]
    have hb2 : ch.toNat = 127 ∨ ch.toNat = 8 := by
      rcases hb with e | e
      · left; exact e127.mp e
      · right; exact e8.mp e
    have hnp : ¬ (32 ≤ ch.toNat ∧ ch.toNat ≤ 126) := by omega
    rw [if_neg hnp, if_pos hb2]
    cases input_buffer <;> rfl
  · rw [if_neg hb, if_neg h3]
    have hb2 : ¬ (ch.toNat = 127 ∨ ch.toNat = 8) := by
      intro hc
      apply hb
      rcases hc with e | e
      · left; exact e127.mpr e
      · right; exact e8.mpr e
    by_cases hp : 32 ≤ ch.toNat ∧ ch.toNat < 127
    · rw [if_pos hp, if_pos (by omega)]
    · rw [if_neg hp, if_neg (by omega), if_neg hb2]

/-- The inner loop over keystrokes that neither submit nor interrupt. -/
theorem read_line_append (seg tail : List Char) (input_buffer : Str)
    (h : ∀ x ∈ seg, x ≠ '\n' ∧ x ≠ '\r' ∧ x ≠ Char.ofNat 3) :
    read_line (seg ++ tail) input_buffer = read_line tail (seg.foldl spec_edit input_buffer) := by
  induction seg generalizing input_buffer with
  | nil => rfl
  | cons x xs ih =>
    rw [List.cons_append, read_line_cons_edit x _ _ (h x (by simp)), List.foldl_cons]
    exact ih _ (fun y hy => h y (by simp [hy]))

/-- The keystrokes up to the first submit or interrupt. -/
theorem first_special (keys : List Char) :
    (∀ x ∈ keys, x ≠ '\n' ∧ x ≠ '\r' ∧ x ≠ Char.ofNat 3) ∨
    ∃ seg c rest, keys = seg ++ c :: rest ∧
      (∀ x ∈ seg, x ≠ '\n' ∧ x ≠ '\r' ∧ x ≠ Char.ofNat 3) ∧
      ((c = '\n' ∨ c = '\r') ∨ c = Char.ofNat 3) := by
  induction keys with
  | nil => left; simp
  | cons k ks ih =>
    by_cases hk : (k = '\n' ∨ k = '\r') ∨ k = Char.ofNat 3
    · right
      exact ⟨[], k, ks, rfl, by simp, hk⟩
    · have hk2 : k ≠ '\n' ∧ k ≠ '\r' ∧ k ≠ Char.ofNat 3 := by
        refine ⟨fun e => hk (Or.inl (Or.inl e)), fun e => hk (Or.inl (Or.inr e)),
          fun e => hk (Or.inr e)⟩
      rcases ih with h | ⟨seg, c, rest, e, hs, hc⟩
      · left
        intro x hx
        rcases List.mem_cons.mp hx with e | e
        · subst e; exact hk2
        · exact h x e
      · right
        refine ⟨k :: seg, c, rest, by simp [e], ?_, hc⟩
        intro x hx
        rcases List.mem_cons.mp hx with e | e
        · subst e; exact hk2
        · exact hs x e

theorem takeWhile_append_all (p : Char → Bool) (seg tail : List Char)
    (h : ∀ x ∈ seg, p x = true) :
    (seg ++ tail).takeWhile p = seg ++ tail.takeWhile p := by
  induction seg with
  | nil => rfl
  | cons x xs ih =>
    rw [List.cons_append, List.takeWhile_cons_of_pos (h x (by simp)),
      ih (fun y hy => h y (by simp [hy])), List.cons_append]

/-- No line is submitted while no submit key is typed. -/
theorem spec_submitted_lines_none (seg tail : List Char)
    (h : ∀ x ∈ seg, x ≠ '\n' ∧ x ≠ '\r' ∧ x ≠ Char.ofNat 3)
    (ht : tail = [] ∨ ∃ rest, tail = Char.ofNat 3 :: rest) :
    spec_submitted_lines (seg ++ tail) = [] := by
  have hseg : (seg ++ tail).takeWhile (· ≠ spec_interrupt) = seg := by
    rw [takeWhile_append_all _ seg tail (fun x hx => by
      have := (h x hx).2.2
      simpa [spec_interrupt] using this)]
    rcases ht with e | ⟨rest, e⟩
    · rw [e]; simp
    · rw [e]; simp [spec_interrupt]
  unfold spec_submitted_lines
  rw [hseg, spec_split_at_single _ seg (fun x hx => by
    have := h x hx
    simp [this.1, this.2.1])]
  rfl

/-- The first submitted line is the text typed before the first submit key. -/
theorem spec_submitted_lines_cons (seg rest : List Char) (c : Char)
    (h : ∀ x ∈ seg, x ≠ '\n' ∧ x ≠ '\r' ∧ x ≠ Char.ofNat 3)
    (hc : c = '\n' ∨ c = '\r') :
    spec_submitted_lines (seg ++ c :: rest) =
      spec_line_text seg :: spec_submitted_lines rest := by
  have hc3 : c ≠ spec_interrupt := by
    rcases hc with e | e <;> rw [e] <;> decide
  have hseg : (seg ++ c :: rest).takeWhile (· ≠ spec_interrupt) =
      seg ++ c :: rest.takeWhile (· ≠ spec_interrupt) := by
    rw [takeWhile_append_all _ seg _ (fun x hx => by
      have := (h x hx).2.2
      simpa [spec_interrupt] using this),
      List.takeWhile_cons_of_pos (by simpa using hc3)]
  unfold spec_submitted_lines
  rw [hseg, spec_split_at_append _ seg _ c (fun x hx => by
      have := h x hx
      simp [this.1, this.2.1]) (by rcases hc with e | e <;> simp [e]),
    List.dropLast_cons_of_ne_nil (spec_split_at_ne_nil _ _), List.map_cons]

theorem spec_interrupt_mem (seg rest : List Char) (c : Char)
    (h : ∀ x ∈ seg, x ≠ '\n' ∧ x ≠ '\r' ∧ x ≠ Char.ofNat 3)
    (hc : c = '\n' ∨ c = '\r') :
    spec_interrupt ∈ seg ++ c :: rest ↔ spec_interrupt ∈ rest := by
  have hc3 : spec_interrupt ≠ c := by
    rcases hc with e | e <;> rw [e] <;> decide
  have hs : spec_interrupt ∉ seg := fun hm => (h _ hm).2.2 rfl
  simp [hs, hc3]

theorem read_line_waiting (keys : List Char)
    (h : ∀ x ∈ keys, x ≠ '\n' ∧ x ≠ '\r' ∧ x ≠ Char.ofNat 3) :
    read_line keys [] = ⟨.waiting, spec_line_text keys, []⟩ := by
  have := read_line_append keys [] [] h
  rw [List.append_nil] at this
  rw [this]
  rfl

theorem read_line_submit (seg rest : List Char) (c : Char)
    (h : ∀ x ∈ seg, x ≠ '\n' ∧ x ≠ '\r' ∧ x ≠ Char.ofNat 3) (hc : c = '\n' ∨ c = '\r') :
    read_line (seg ++ c :: rest) [] = ⟨.submitted, spec_line_text seg, rest⟩ := by
  rw [read_line_append seg (c :: rest) [] h, read_line, if_pos hc]
  rfl

theorem read_line_interrupt (seg rest : List Char)
    (h : ∀ x ∈ seg, x ≠ '\n' ∧ x ≠ '\r' ∧ x ≠ Char.ofNat 3) :
    read_line (seg ++ Char.ofNat 3 :: rest) [] = ⟨.interrupted, spec_line_text seg, rest⟩ := by
  rw [read_line_append seg (Char.ofNat 3 :: rest) [] h, read_line, if_neg (by decide),
    if_neg (by decide), if_pos rfl]
  rfl

/-- The interactive loop against the specification, for any bound that
exceeds the number of keystrokes. -/
theorem run_loop_eq (fuel : Nat) (keys : List Char) (h : keys.length < fuel) :
    (run_loop fuel keys).sent = spec_commands keys ∧
    ((run_loop fuel keys).running = false ↔
      (spec_interrupt ∈ keys ∨ ∃ l ∈ spec_submitted_lines keys, spec_is_quit l = true)) := by
  induction fuel generalizing keys with
  | zero => omega
  | succ n ih =>
    rcases first_special keys with hno | ⟨seg, c, rest, e, hs, hc | hc⟩
    · have hsub : spec_submitted_lines keys = [] := by
        have := spec_submitted_lines_none keys [] hno (Or.inl rfl)
        rwa [List.append_nil] at this
      have hni : spec_interrupt ∉ keys := fun hm => (hno _ hm).2.2 rfl
      unfold run_loop
      simp only [read_line_waiting keys hno]
      constructor
      · simp [spec_commands, hsub]
      · simp [hsub, hni]
    · subst e
      have hlen : rest.length < n := by
        simp at h
        omega
      have hsub := spec_submitted_lines_cons seg rest c hs hc
      have hmem := spec_interrupt_mem seg rest c hs hc
      obtain ⟨i1, i2⟩ := ih rest hlen
      unfold run_loop
      simp only [read_line_submit seg rest c hs hc]
      by_cases hem : (spec_line_text seg).isEmpty = true
      · have hq : spec_is_quit (spec_line_text seg) = false := by
          have : spec_line_text seg = [] := by simpa using hem
          rw [this]
          decide
        simp only [hem, Bool.not_true, Bool.false_eq_true, if_false]
        constructor
        · rw [i1]
          simp [spec_commands, hsub, hem]
        · rw [i2, hmem, hsub]
          simp [hq]
      · by_cases hq : spec_line_text seg = "quit".toList ∨ spec_line_text seg = "exit".toList
        · have hq2 : spec_is_quit (spec_line_text seg) = true := by
            simpa [spec_is_quit] using hq
          simp only [hem, Bool.not_false, if_true, hq]
          constructor
          · simp [spec_commands, hsub, hem, hq2]
          · simp [hsub, hq2]
        · have hq2 : spec_is_quit (spec_line_text seg) = false := by
            simpa [spec_is_quit] using hq
          simp only [hem, Bool.not_false, if_true, hq, if_false]
          constructor
          · rw [i1]
            simp [spec_commands, hsub, hem, hq2]
          · rw [i2, hmem, hsub]
            simp [hq2]
    · subst e
      subst hc
      have hsub := spec_submitted_lines_none seg (Char.ofNat 3 :: rest) hs
        (Or.inr ⟨rest, rfl⟩)
      unfold run_loop
      simp only [read_line_interrupt seg rest hs]
      constructor
      · simp [spec_commands, hsub]
      · simp [spec_interrupt]

/-- Once the loop has stopped, further keystrokes change nothing. -/
theorem run_loop_stopped (fuel fuel2 : Nat) (keys more : List Char)
    (h : keys.length < fuel) (h2 : (keys ++ more).length < fuel2)
    (hstop : (run_loop fuel keys).running = false) :
    run_loop fuel2 (keys ++ more) = run_loop fuel keys := by
  induction fuel generalizing keys fuel2 with
  | zero => omega
  | succ n ih =>
    cases fuel2 with
    | zero => omega
    | succ n2 =>
      rcases first_special keys with hno | ⟨seg, c, rest, e, hs, hc | hc⟩
      · exfalso
        unfold run_loop at hstop
        simp only [read_line_waiting keys hno] at hstop
        simp at hstop
      · subst e
        have hlen : rest.length < n := by
          simp at h
          omega
        have hlen2 : (rest ++ more).length < n2 := by
          simp at h2 ⊢
          omega
        have e2 : seg ++ c :: rest ++ more = seg ++ c :: (rest ++ more) := by simp
        unfold run_loop at hstop ⊢
        rw [e2]
        simp only [read_line_submit seg rest c hs hc,
          read_line_submit seg (rest ++ more) c hs hc] at hstop ⊢
        by_cases hem : (spec_line_text seg).isEmpty = true
        · simp only [hem, Bool.not_true, Bool.false_eq_true, if_false] at hstop ⊢
          exact ih n2 rest hlen hlen2 hstop
        · by_cases hq : spec_line_text seg = "quit".toList ∨ spec_line_text seg = "exit".toList
          · simp only [hem, Bool.not_false, if_true, hq]
          · simp only [hem, Bool.not_false, if_true, hq, if_false] at hstop ⊢
            rw [ih n2 rest hlen hlen2 hstop]
      · subst e
        subst hc
        have e2 : seg ++ Char.ofNat 3 :: rest ++ more = seg ++ Char.ofNat 3 :: (rest ++ more) := by
          simp
        unfold run_loop
        rw [e2]
        simp only [read_line_interrupt seg rest hs, read_line_interrupt seg (rest ++ more) hs]

/-- C14: the commands passed to `send_command` by the interactive loop are
exactly the submitted non-empty lines, in order, before the first submitted
line equal to `quit` or `exit` and before the first interrupt character (the
quit or exit line and the line in progress at an interrupt are not among
them); the flag `running` is false exactly when such a line or an interrupt
has been read, and from then on further keystrokes change nothing: nothing
more is sent. -/
theorem run_terminal_commands (keys : List Char) :
    (run_terminal keys).sent = spec_commands keys ∧
    ((run_terminal keys).running = false ↔
      (spec_interrupt ∈ keys ∨ ∃ l ∈ spec_submitted_lines keys, spec_is_quit l = true)) ∧
    (∀ more, (run_terminal keys).running = false →
      run_terminal (keys ++ more) = run_terminal keys) ∧
    run_terminal "V\rab\x7fc\n\nquit\rO\n".toList = ⟨false, ["V".toList, "ac".toList], "quit".toList⟩ ∧
    run_terminal "V\rO\x03C\n".toList = ⟨false, ["V".toList], "O".toList⟩ := by
  refine ⟨(run_loop_eq _ keys (Nat.lt_succ_self _)).1,
    (run_loop_eq _ keys (Nat.lt_succ_self _)).2, ?_, by decide, by decide⟩
  intro more hstop
  exact run_loop_stopped _ _ keys more (Nat.lt_succ_self _) (Nat.lt_succ_self _) hstop
/-! ### The session and its shutdown -/

theorem rx_step_invariant (s s2 : Session) (hi : session_invariant s)
    (h : rx_step s = some s2) : session_invariant s2 := by
  obtain ⟨running, main, rx, keys, written, ct, rd, sf, cr⟩ := s
  obtain ⟨i1, i2, i3, i4, i5⟩ := hi
  simp only at i1 i2 i3 i4 i5
  cases rx
  · simp [rx_step] at h
  · simp only [rx_step] at h
    cases running
    · simp only [Bool.false_eq_true, if_false, Option.some.injEq] at h
      subst h
      refine ⟨by simpa using i1, fun _ => rfl, fun _ => rfl, i4, ?_⟩
      intro hm
      have := i5 hm
      simp at this
    · simp only [if_true, Option.some.injEq] at h
      subst h
      refine ⟨?_, ?_, ?_, i4, ?_⟩
      · simp at i1 ⊢
        omega
      · intro hsf
        have := i2 hsf
        simp at this
      · intro hm
        have := i3 hm
        simp at this
      · intro hm
        have := i5 hm
        simp at this
  · simp only [rx_step, Option.some.injEq] at h
    subst h
    refine ⟨?_, ?_, ?_, i4, ?_⟩
    · simp at i1 ⊢
      omega
    · intro hsf
      have := i2 hsf
      simp at this
    · intro hm
      have := i3 hm
      simp at this
    · intro hm
      have := i5 hm
      simp at this
  · simp only [rx_step, Option.some.injEq] at h
    subst h
    refine ⟨?_, ?_, ?_, i4, ?_⟩
    · simpa using i1
    · intro hsf
      have := i2 hsf
      simp at this
    · intro hm
      have := i3 hm
      simp at this
    · intro hm
      have := i5 hm
      simp at this
  · simp [rx_step] at h

/-- A step of the main thread leaves the receiver as it is, unless it creates
the thread. -/
theorem main_step_rx (s s2 : Session) (h : main_step s = some s2) :
    s2.rx_checks_true = s.rx_checks_true ∧ s2.rx_reads = s.rx_reads ∧
    s2.rx_saw_false = s.rx_saw_false ∧ s2.closed_reported = (s.closed_reported || s.main == .report) ∧
    ((s2.rx = s.rx ∧ s.main ≠ .spawn) ∨ (s.main = .spawn ∧ s2.rx = .check ∧ s2.main = .loop_head)) ∧
    (s2.main = .report → s.main = .join ∧ s.rx = .done) ∧
    (s2.main = .finished → s.main = .report) ∧
    (s.main = .report → s2.main = .finished) ∧
    s.main ≠ .finished ∧
    (s2.main = .start ∨ s2.main = .spawn → s.main = .start) := by
  obtain ⟨running, main, rx, keys, written, ct, rd, sf, cr⟩ := s
  cases main
  case read_keys =>
    simp only [main_step] at h
    split at h
    · simp at h
    · simp only [Option.some.injEq] at h
      subst h
      simp
    · simp only [Option.some.injEq] at h
      subst h
      simp
  case process buf =>
    simp only [main_step] at h
    split_ifs at h
    all_goals
      simp only [Option.some.injEq] at h
      subst h
      simp
  case join =>
    simp only [main_step] at h
    split_ifs at h with hd
    simp only [Option.some.injEq] at h
    subst h
    simpa using hd
  case loop_head =>
    simp only [main_step, Option.some.injEq] at h
    subst h
    cases running <;> simp
  case check buf =>
    simp only [main_step, Option.some.injEq] at h
    subst h
    cases running <;> simp
  all_goals
    simp only [main_step, Option.some.injEq, reduceCtorEq] at h
    try subst h
    try simp

theorem main_step_invariant (s s2 : Session) (hi : session_invariant s)
    (h : main_step s = some s2) : session_invariant s2 := by
  obtain ⟨i1, i2, i3, i4, i5⟩ := hi
  obtain ⟨m1, m2, m3, m4, m5, m6, m7, m8, m9, m10⟩ := main_step_rx s s2 h
  have hns : s.main = .spawn → s.rx = .not_started := fun e => i5 (Or.inr e)
  refine ⟨?_, ?_, ?_, ?_, ?_⟩
  · rw [m1, m2, i1]
    rcases m5 with ⟨e, _⟩ | ⟨e, e2, _⟩
    · rw [e]
    · rw [e2, hns e]
      simp
  · intro hsf
    rw [m3] at hsf
    rcases m5 with ⟨e, _⟩ | ⟨e, e2, _⟩
    · rw [e]
      exact i2 hsf
    · have := i2 hsf
      rw [hns e] at this
      simp at this
  · intro hm
    rcases m5 with ⟨e, _⟩ | ⟨e, e2, e3⟩
    · rw [e]
      rcases hm with hm | hm
      · exact (m6 hm).2
      · exact i3 (Or.inl (m7 hm))
    · rw [e3] at hm
      simp at hm
  · intro hc
    rw [m4] at hc
    have hc2 : s.closed_reported = true ∨ s.main = .report := by
      simpa using hc
    rcases hc2 with hc2 | hc2
    · exact absurd (i4 hc2) m9
    · exact m8 hc2
  · intro hm
    have hst := m10 hm
    rcases m5 with ⟨e, _⟩ | ⟨e, _, _⟩
    · rw [e]
      exact i5 (Or.inl hst)
    · rw [hst] at e
      simp at e

theorem step_invariant (s s2 : Session) (a : Action) (hi : session_invariant s)
    (h : step s a = some s2) : session_invariant s2 := by
  cases a
  · exact main_step_invariant s s2 hi h
  · exact rx_step_invariant s s2 hi h
  · simp only [step, Option.some.injEq] at h
    subst h
    exact hi

theorem run_invariant (schedule : List Action) (s s2 : Session) (hi : session_invariant s)
    (h : run s schedule = some s2) : session_invariant s2 := by
  induction schedule generalizing s with
  | nil =>
    simp only [run, Option.some.injEq] at h
    subst h
    exact hi
  | cons a rest ih =>
    simp only [run] at h
    cases hs : step s a with
    | none => simp [hs] at h
    | some s1 =>
      rw [hs] at h
      exact ih s1 (step_invariant s s1 a hi hs) h

/-- A receiver that has returned stays so, and reads no more. -/
theorem step_rx_done (s s2 : Session) (a : Action) (h : step s a = some s2)
    (hd : s.rx = .done) (hm : s.main ≠ .spawn) : s2.rx = .done ∧ s2.rx_reads = s.rx_reads := by
  cases a
  · obtain ⟨_, m2, _, _, m5, _⟩ := main_step_rx s s2 h
    rcases m5 with ⟨e, _⟩ | ⟨e, _, _⟩
    · exact ⟨by rw [e, hd], m2⟩
    · exact absurd e hm
  · simp only [step, rx_step, hd] at h
    simp at h
  · simp only [step, Option.some.injEq] at h
    subst h
    exact ⟨hd, rfl⟩

theorem run_rx_done (schedule : List Action) (s s2 : Session) (hi : session_invariant s)
    (h : run s schedule = some s2) (hd : s.rx = .done) :
    s2.rx = .done ∧ s2.rx_reads = s.rx_reads := by
  induction schedule generalizing s with
  | nil =>
    simp only [run, Option.some.injEq] at h
    subst h
    exact ⟨hd, rfl⟩
  | cons a rest ih =>
    simp only [run] at h
    cases hs : step s a with
    | none => simp [hs] at h
    | some s1 =>
      rw [hs] at h
      have hm : s.main ≠ .spawn := by
        intro e
        have := hi.2.2.2.2 (Or.inr e)
        rw [hd] at this
        simp at this
      obtain ⟨d1, r1⟩ := step_rx_done s s1 a hs hd hm
      obtain ⟨d2, r2⟩ := ih s1 (step_invariant s s1 a hi hs) h d1
      exact ⟨d2, by rw [r2, r1]⟩

/-- The steps that clear the flag `running`. -/
theorem step_clears_running (s s2 : Session) (a : Action) (h : step s a = some s2)
    (h1 : s.running = true) (h2 : s2.running = false) :
    a = .stop ∨
    (a = .main ∧ s.main = .read_keys ∧ (read_line s.keys []).ending = .interrupted) ∨
    (a = .main ∧ ∃ input_buffer, s.main = .process input_buffer ∧
      spec_is_quit input_buffer = true) := by
  obtain ⟨running, main, rx, keys, written, ct, rd, sf, cr⟩ := s
  simp only at h1
  subst h1
  cases a
  · right
    cases main
    case read_keys =>
      simp only [step, main_step] at h
      split at h
      · simp at h
      · simp only [Option.some.injEq] at h
        subst h
        simp at h2
      · left
        exact ⟨rfl, rfl, by assumption⟩
    case process buf =>
      simp only [step, main_step] at h
      split_ifs at h with hne hq
      · right
        refine ⟨rfl, buf, rfl, ?_⟩
        simpa [spec_is_quit] using hq
      · simp only [Option.some.injEq] at h
        subst h
        simp at h2
      · simp only [Option.some.injEq] at h
        subst h
        simp at h2
    case join =>
      simp only [step, main_step] at h
      split_ifs at h
      simp only [Option.some.injEq] at h
      subst h
      simp at h2
    all_goals
      simp only [step, main_step, Option.some.injEq, reduceCtorEq] at h
      try subst h
      try simp at h2
  · exfalso
    cases rx
    all_goals
      simp only [step, rx_step, if_true, Option.some.injEq, reduceCtorEq] at h
      try subst h
      try simp at h2
  · left
    rfl

theorem session_start_invariant (keys : List Char) : session_invariant (session_start keys) := by
  simp [session_invariant, session_start]

/-- C15: in every execution of the session (any keystrokes, any schedule of
the two threads and of calls of `stop()`): every read of the serial link by
the receiver follows its own test of `running` that found the flag true; once
the receiver has found the flag false it has returned, and in every
continuation it stays returned and reads no more; a step that clears the flag
is a call of `stop()`, the interrupt in the interactive loop, or a submitted
`quit` or `exit` line; the main thread passes `join` only when the receiver
has returned, and `Terminal closed.` is reported only after that. -/
theorem session_shutdown (keys : List Char) (schedule : List Action) (s : Session)
    (h : run (session_start keys) schedule = some s) :
    s.rx_checks_true = s.rx_reads + (if s.rx = .read then 1 else 0) ∧
    (s.rx_saw_false = true → s.rx = .done) ∧
    (∀ more s2, run s more = some s2 → s.rx = .done →
      s2.rx = .done ∧ s2.rx_reads = s.rx_reads) ∧
    (∀ a s2, step s a = some s2 → s.running = true → s2.running = false →
      a = .stop ∨
      (a = .main ∧ s.main = .read_keys ∧ (read_line s.keys []).ending = .interrupted) ∨
      (a = .main ∧ ∃ input_buffer, s.main = .process input_buffer ∧
        spec_is_quit input_buffer = true)) ∧
    (s.main = .report ∨ s.main = .finished ∨ s.closed_reported = true → s.rx = .done) ∧
    (∀ s2, s.main = .join → step s .main = some s2 → s.rx = .done ∧ s2.main = .report) := by
  have hi := run_invariant schedule _ s (session_start_invariant keys) h
  obtain ⟨i1, i2, i3, i4, i5⟩ := hi
  refine ⟨i1, i2, ?_, ?_, ?_, ?_⟩
  · intro more s2 hr hd
    exact run_rx_done more s s2 ⟨i1, i2, i3, i4, i5⟩ hr hd
  · intro a s2 hs h1 h2
    exact step_clears_running s s2 a hs h1 h2
  · rintro (hm | hm | hc)
    · exact i3 (Or.inl hm)
    · exact i3 (Or.inr hm)
    · exact i3 (Or.inr (i4 hc))
  · intro s2 hj hs
    obtain ⟨_, _, _, _, _, m6, _⟩ := main_step_rx s s2 hs
    have hm2 : s2.main = .report := by
      simp only [step, main_step, hj] at hs
      split_ifs at hs
      simp only [Option.some.injEq] at hs
      rw [← hs]
    exact ⟨(m6 hm2).2, hm2⟩

/-- C15 on the keystrokes `V`, return, `quit`, return: a schedule in which the
receiver is between its test and its read when `quit` clears the flag; it
makes that read, then finds the flag false and returns, and only then does
the main thread pass `join` and report. -/
theorem session_shutdown_witness :
    run (session_start "V\rquit\r".toList)
        [.main, .main, .main, .rx, .rx, .main, .main, .main, .rx, .rx, .main, .main,
         .main, .main, .main, .rx, .rx, .rx, .main, .main] =
      some ⟨false, .finished, .done, [], ["V\r".toList], 2, 2, true, true⟩ ∧
    (2 : Nat) = 2 + (if RxPc.done = RxPc.read then 1 else 0) ∧
    RxPc.done = RxPc.done :=
  ⟨by decide,
   (session_shutdown "V\rquit\r".toList
      [.main, .main, .main, .rx, .rx, .main, .main, .main, .rx, .rx, .main, .main,
       .main, .main, .main, .rx, .rx, .rx, .main, .main]
      ⟨false, .finished, .done, [], ["V\r".toList], 2, 2, true, true⟩ (by decide)).1,
   (session_shutdown "V\rquit\r".toList
      [.main, .main, .main, .rx, .rx, .main, .main, .main, .rx, .rx, .main, .main,
       .main, .main, .main, .rx, .rx, .rx, .main, .main]
      ⟨false, .finished, .done, [], ["V\r".toList], 2, 2, true, true⟩ (by decide)).2.2.2.2.1
      (Or.inr (Or.inr rfl))⟩


end Slcan
